import Mathlib

/-!
Verification of the deep-research core of the web-search-mcp repository.

The TypeScript sources are shallowly embedded: JS numbers are modelled as
rationals, JS `Map`-based merging as insertion-ordered association lists,
asynchronous external calls (model gateway, metasearch, HTTP fetch, HTML
parsing) as oracle functions packaged in environment structures, thrown
exceptions as `Except`/`Option` results, and the shared mutable budget
object as explicitly threaded state.
-/

namespace WebSearch

/-! ## Generic insertion-ordered merge map

Both `mergeWeightedLearnings` and `mergeSourceMetadata` in
`src/deep-research.ts` build a JS `Map` keyed by a string (trimmed content,
resp. url), skip falsy keys, keep the entry with the strictly greater
numeric value (first one wins ties), and read the values back in insertion
order.  The machinery is developed once, generically in the key and value
functions. -/

section MergeBy

variable {α : Type} (key : α → String) (rel : α → ℚ)

/-- Keep the first element unless the second has strictly greater `rel`;
this is the update rule of `Map.set` guarded by `item.reliability > prev.reliability`. -/
def opP (a x : α) : α := if rel a < rel x then x else a

/-- Insert into an insertion-ordered association list the way `Map.set`
does: the first entry with the same key is updated in place, otherwise the
item is appended at the end. -/
def insertItem (x : α) : List α → List α
  | [] => [x]
  | a :: s =>
    if key a = key x then opP rel a x :: s
    else a :: insertItem x s

/-- Process one item of the merged spread: items with an empty key are
skipped (`if (!key) continue` resp. `if (!item?.url) continue`). -/
def step (s : List α) (x : α) : List α :=
  if key x = "" then s else insertItem key rel x s

/-- Insert a whole list into an empty map and read the values back in
insertion order. -/
def canon (L : List α) : List α := L.foldl (step key rel) []

/-- Generic form of the two merge functions of `deep-research.ts`: spread
both lists into one map. -/
def mergeBy (A B : List α) : List α := canon key rel (A ++ B)

/-- Fold step computing the surviving value for one fixed key. -/
def pickStep (k : String) (acc : Option α) (x : α) : Option α :=
  if key x = k then
    match acc with
    | none => some x
    | some a => some (opP rel a x)
  else acc

/-- The value surviving for key `k` after inserting all of `L`. -/
def pick (k : String) (L : List α) : Option α := L.foldl (pickStep key rel k) none

/-- Combine an accumulator with the survivor of a later segment. -/
def pickJoin (acc : Option α) (p : Option α) : Option α :=
  match p with
  | none => acc
  | some m =>
    some (match acc with
          | none => m
          | some a => opP rel a m)

/-- Record a key in first-occurrence order, skipping empty keys. -/
def addKey (s : List String) (k : String) : List String :=
  if k = "" ∨ k ∈ s then s else s ++ [k]

/-- Record many keys in first-occurrence order. -/
def addKeys (s : List String) (ks : List String) : List String := ks.foldl addKey s

/-- The keys of a list in first-occurrence order, empty keys skipped. -/
def keysOf (L : List α) : List String := addKeys [] (L.map key)

/-- Extensional description of `canon`: one surviving value per key, keys in
first-occurrence order. -/
def canonSpec (L : List α) : List α := (keysOf key L).filterMap (fun k => pick key rel k L)

end MergeBy

section MergeByLemmas

variable {α : Type} (key : α → String) (rel : α → ℚ)

theorem opP_assoc (a x m : α) : opP rel (opP rel a x) m = opP rel a (opP rel x m) := by
  unfold opP
  split_ifs <;> first | rfl | (exfalso; linarith)

theorem addKeys_append (s : List String) (l₁ l₂ : List String) :
    addKeys s (l₁ ++ l₂) = addKeys (addKeys s l₁) l₂ := by
  unfold addKeys
  exact List.foldl_append _ _ _ _

theorem addKeys_nil (s : List String) : addKeys s [] = s := rfl

theorem addKeys_cons (s : List String) (k : String) (ks : List String) :
    addKeys s (k :: ks) = addKeys (addKey s k) ks := rfl

theorem addKey_prefix (s : List String) (k : String) : ∃ t, addKey s k = s ++ t := by
  unfold addKey
  split_ifs with h
  · exact ⟨[], by simp⟩
  · exact ⟨[k], rfl⟩

theorem addKeys_prefix (ks : List String) : ∀ s : List String, ∃ t, addKeys s ks = s ++ t := by
  induction ks with
  | nil => exact fun s => ⟨[], by simp [addKeys_nil]⟩
  | cons k ks ih =>
    intro s
    rw [addKeys_cons]
    obtain ⟨t₁, h₁⟩ := addKey_prefix s k
    obtain ⟨t₂, h₂⟩ := ih (addKey s k)
    exact ⟨t₁ ++ t₂, by rw [h₂, h₁, List.append_assoc]⟩

theorem mem_addKeys_left (ks : List String) (s : List String) (k : String) (h : k ∈ s) :
    k ∈ addKeys s ks := by
  obtain ⟨t, ht⟩ := addKeys_prefix ks s
  rw [ht]
  exact List.mem_append_left _ h

theorem mem_addKey_self (s : List String) (k : String) (hk : k ≠ "") : k ∈ addKey s k := by
  unfold addKey
  split_ifs with h
  · rcases h with h | h
    · exact absurd h hk
    · exact h
  · simp

theorem mem_addKeys_right (ks : List String) : ∀ s k, k ∈ ks → k ≠ "" → k ∈ addKeys s ks := by
  induction ks with
  | nil => intro s k h; simp at h
  | cons k₀ ks ih =>
    intro s k h hk
    rw [addKeys_cons]
    rcases List.mem_cons.mp h with h | h
    · subst h
      exact mem_addKeys_left ks _ k (mem_addKey_self s k hk)
    · exact ih _ k h hk

theorem empty_not_mem_addKey (s : List String) (k : String) (h : "" ∉ s) :
    "" ∉ addKey s k := by
  unfold addKey
  split_ifs with h'
  · exact h
  · intro hmem
    rcases List.mem_append.mp hmem with hmem | hmem
    · exact h hmem
    · simp at hmem
      rcases h' with h'
      exact h' (Or.inl hmem.symm)

theorem empty_not_mem_addKeys (ks : List String) : ∀ s, "" ∉ s → "" ∉ addKeys s ks := by
  induction ks with
  | nil => intro s h; exact h
  | cons k ks ih =>
    intro s h
    rw [addKeys_cons]
    exact ih _ (empty_not_mem_addKey s k h)

theorem nodup_addKey (s : List String) (k : String) (h : s.Nodup) : (addKey s k).Nodup := by
  unfold addKey
  split_ifs with h'
  · exact h
  · rw [List.nodup_append]
    refine ⟨h, List.nodup_singleton k, ?_⟩
    intro a ha hb
    simp at hb
    subst hb
    exact h' (Or.inr ha)

theorem nodup_addKeys (ks : List String) : ∀ s : List String, s.Nodup → (addKeys s ks).Nodup := by
  induction ks with
  | nil => intro s h; exact h
  | cons k ks ih =>
    intro s h
    rw [addKeys_cons]
    exact ih _ (nodup_addKey s k h)

theorem mem_addKey_iff (s : List String) (k k' : String) :
    k ∈ addKey s k' ↔ k ∈ s ∨ (k ≠ "" ∧ k = k') := by
  unfold addKey
  split_ifs with h
  · constructor
    · intro hm; exact Or.inl hm
    · rintro (hm | ⟨hk, rfl⟩)
      · exact hm
      · rcases h with h | h
        · exact absurd h hk
        · exact h
  · push_neg at h
    simp only [List.mem_append, List.mem_singleton]
    constructor
    · rintro (hm | rfl)
      · exact Or.inl hm
      · exact Or.inr ⟨h.1, rfl⟩
    · rintro (hm | ⟨hk, rfl⟩)
      · exact Or.inl hm
      · exact Or.inr rfl

theorem mem_addKeys_iff (ks : List String) :
    ∀ s k, k ∈ addKeys s ks ↔ k ∈ s ∨ (k ≠ "" ∧ k ∈ ks) := by
  induction ks with
  | nil => intro s k; simp [addKeys_nil]
  | cons k₀ ks ih =>
    intro s k
    rw [addKeys_cons, ih]
    rw [mem_addKey_iff]
    constructor
    · rintro ((hm | ⟨hk, rfl⟩) | ⟨hk, hm⟩)
      · exact Or.inl hm
      · exact Or.inr ⟨hk, List.mem_cons_self _ _⟩
      · exact Or.inr ⟨hk, List.mem_cons_of_mem _ hm⟩
    · rintro (hm | ⟨hk, hm⟩)
      · exact Or.inl (Or.inl hm)
      · rcases List.mem_cons.mp hm with rfl | hm
        · exact Or.inl (Or.inr ⟨hk, rfl⟩)
        · exact Or.inr ⟨hk, hm⟩

theorem addKeys_addKeys (r : List String) :
    ∀ s t, addKeys s (addKeys t r) = addKeys (addKeys s t) r := by
  induction r with
  | nil => intro s t; rfl
  | cons k r ih =>
    intro s t
    rw [addKeys_cons (s := addKeys s t)]
    by_cases hk : k = "" ∨ k ∈ t
    · have ht : addKeys t (k :: r) = addKeys t r := by
        rw [addKeys_cons]
        unfold addKey
        rw [if_pos hk]
      have hs : addKey (addKeys s t) k = addKeys s t := by
        unfold addKey
        rcases hk with hk | hk
        · rw [if_pos (Or.inl hk)]
        · rcases eq_or_ne k "" with hk' | hk'
          · rw [if_pos (Or.inl hk')]
          · rw [if_pos (Or.inr (mem_addKeys_right t s k hk hk'))]
      rw [ht, hs, ih]
    · push_neg at hk
      have ht : addKeys t (k :: r) = addKeys (t ++ [k]) r := by
        rw [addKeys_cons]
        unfold addKey
        rw [if_neg (by push_neg; exact hk)]
      have hsk : addKey (addKeys s t) k = addKeys s (t ++ [k]) := by
        rw [addKeys_append]
        rfl
      rw [ht, ih, hsk]

end MergeByLemmas

section PickLemmas

variable {α : Type} (key : α → String) (rel : α → ℚ)

theorem pick_nil (k : String) : pick key rel k [] = none := rfl

theorem pick_append (k : String) (X Y : List α) :
    pick key rel k (X ++ Y) = Y.foldl (pickStep key rel k) (pick key rel k X) := by
  unfold pick
  exact List.foldl_append _ _ _ _

theorem foldl_pickStep_eq (k : String) :
    ∀ (Y : List α) (acc : Option α),
      Y.foldl (pickStep key rel k) acc = pickJoin rel acc (pick key rel k Y) := by
  intro Y
  induction Y with
  | nil => intro acc; cases acc <;> rfl
  | cons x Y ih =>
    intro acc
    have hpick : pick key rel k (x :: Y) = pickJoin rel (pickStep key rel k none x) (pick key rel k Y) := by
      unfold pick
      rw [List.foldl_cons, ih]
      rfl
    rw [List.foldl_cons, ih, hpick]
    by_cases hk : key x = k
    · simp only [pickStep, if_pos hk]
      cases acc with
      | none =>
        cases hY : pick key rel k Y with
        | none => rfl
        | some m => rfl
      | some a =>
        cases hY : pick key rel k Y with
        | none => rfl
        | some m =>
          simp only [pickJoin]
          rw [opP_assoc]
    · simp only [pickStep, if_neg hk]
      cases hY : pick key rel k Y with
      | none => rfl
      | some m => cases acc <;> rfl

theorem key_opP (a x : α) (ha : key a = k) (hx : key x = k) : key (opP rel a x) = k := by
  unfold opP
  split_ifs <;> assumption

theorem pick_key (k : String) :
    ∀ (L : List α) (acc : Option α), (∀ a, acc = some a → key a = k) →
      ∀ m, L.foldl (pickStep key rel k) acc = some m → key m = k := by
  intro L
  induction L with
  | nil =>
    intro acc hacc m hm
    exact hacc m hm
  | cons x L ih =>
    intro acc hacc m hm
    rw [List.foldl_cons] at hm
    refine ih _ ?_ m hm
    intro a ha
    unfold pickStep at ha
    split_ifs at ha with hk
    · cases acc with
      | none =>
        simp at ha
        subst ha
        exact hk
      | some b =>
        simp at ha
        subst ha
        exact key_opP key rel b x (hacc b rfl) hk
    · exact hacc a ha

theorem pick_key_of_some (k : String) (L : List α) (m : α) (h : pick key rel k L = some m) :
    key m = k :=
  pick_key key rel k L none (by intro a ha; cases ha) m h

theorem pick_eq_none (k : String) :
    ∀ (L : List α), (∀ x ∈ L, key x ≠ k) → pick key rel k L = none := by
  intro L hL
  induction L with
  | nil => rfl
  | cons x L ih =>
    unfold pick
    rw [List.foldl_cons]
    have hx : pickStep key rel k none x = none := by
      unfold pickStep
      rw [if_neg (hL x (List.mem_cons_self _ _))]
    rw [hx]
    exact ih (fun y hy => hL y (List.mem_cons_of_mem _ hy))

theorem pick_isSome_of_mem (k : String) (L : List α) (x : α) (hx : x ∈ L) (hk : key x = k) :
    ∃ m, pick key rel k L = some m := by
  obtain ⟨L₁, L₂, rfl⟩ := List.append_of_mem hx
  have h : pick key rel k (L₁ ++ x :: L₂) =
      L₂.foldl (pickStep key rel k) (pickStep key rel k (pick key rel k L₁) x) := by
    rw [pick_append]
    rfl
  have hb : ∃ b, pickStep key rel k (pick key rel k L₁) x = some b := by
    unfold pickStep
    rw [if_pos hk]
    cases pick key rel k L₁ with
    | none => exact ⟨x, rfl⟩
    | some a => exact ⟨opP rel a x, rfl⟩
  obtain ⟨b, hbe⟩ := hb
  rw [h, hbe, foldl_pickStep_eq]
  cases pick key rel k L₂ with
  | none => exact ⟨b, rfl⟩
  | some m => exact ⟨opP rel b m, rfl⟩

theorem opP_cases (a x : α) : opP rel a x = a ∨ opP rel a x = x := by
  unfold opP
  split_ifs
  · exact Or.inr rfl
  · exact Or.inl rfl

theorem foldl_pickStep_mem (k : String) :
    ∀ (L : List α) (acc : Option α) (m : α),
      L.foldl (pickStep key rel k) acc = some m → acc = some m ∨ m ∈ L := by
  intro L
  induction L with
  | nil =>
    intro acc m hm
    exact Or.inl hm
  | cons x L ih =>
    intro acc m hm
    rw [List.foldl_cons] at hm
    rcases ih _ m hm with h | h
    · unfold pickStep at h
      split_ifs at h with hk
      · cases acc with
        | none =>
          simp at h
          exact Or.inr (List.mem_cons.mpr (Or.inl h.symm))
        | some a =>
          simp at h
          rcases opP_cases rel a x with ho | ho
          · rw [ho] at h
            exact Or.inl (by rw [h])
          · rw [ho] at h
            exact Or.inr (List.mem_cons.mpr (Or.inl h.symm))
      · exact Or.inl h
    · exact Or.inr (List.mem_cons_of_mem _ h)

theorem mem_of_pick (k : String) (L : List α) (m : α) (h : pick key rel k L = some m) :
    m ∈ L := by
  rcases foldl_pickStep_mem key rel k L none m h with h | h
  · cases h
  · exact h

theorem rel_opP_left (a x : α) : rel a ≤ rel (opP rel a x) := by
  unfold opP
  split_ifs with h
  · exact le_of_lt h
  · exact le_refl _

theorem rel_opP_right (a x : α) : rel x ≤ rel (opP rel a x) := by
  unfold opP
  split_ifs with h
  · exact le_refl _
  · exact le_of_not_lt h

theorem foldl_pickStep_mono (k : String) :
    ∀ (L : List α) (a m : α),
      L.foldl (pickStep key rel k) (some a) = some m → rel a ≤ rel m := by
  intro L
  induction L with
  | nil =>
    intro a m hm
    simp at hm
    rw [hm]
  | cons x L ih =>
    intro a m hm
    rw [List.foldl_cons] at hm
    unfold pickStep at hm
    split_ifs at hm with hk
    · exact le_trans (rel_opP_left rel a x) (ih _ m hm)
    · exact ih _ m hm

theorem rel_le_pick (k : String) :
    ∀ (L : List α) (x : α), x ∈ L → key x = k →
      ∀ m, pick key rel k L = some m → rel x ≤ rel m := by
  intro L x hx hk m hm
  obtain ⟨L₁, L₂, rfl⟩ := List.append_of_mem hx
  have hsplit : pick key rel k (L₁ ++ x :: L₂) = L₂.foldl (pickStep key rel k) (pickStep key rel k (pick key rel k L₁) x) := by
    rw [pick_append]
    rfl
  rw [hsplit] at hm
  have hstep : ∃ b, pickStep key rel k (pick key rel k L₁) x = some b ∧ rel x ≤ rel b := by
    unfold pickStep
    rw [if_pos hk]
    cases pick key rel k L₁ with
    | none => exact ⟨x, rfl, le_refl _⟩
    | some a => exact ⟨opP rel a x, rfl, rel_opP_right rel a x⟩
  obtain ⟨b, hb, hxb⟩ := hstep
  rw [hb] at hm
  exact le_trans hxb (foldl_pickStep_mono key rel k L₂ b m hm)

end PickLemmas

section CanonLemmas

variable {α : Type} (key : α → String) (rel : α → ℚ)

theorem insertItem_nil (x : α) : insertItem key rel x [] = [x] := rfl

theorem insertItem_cons (x a : α) (s : List α) :
    insertItem key rel x (a :: s) =
      if key a = key x then opP rel a x :: s else a :: insertItem key rel x s := rfl

theorem mem_insertItem (x : α) :
    ∀ (s : List α) (y : α), y ∈ insertItem key rel x s → y = x ∨ y ∈ s := by
  intro s
  induction s with
  | nil =>
    intro y hy
    simp [insertItem] at hy
    exact Or.inl hy
  | cons a s ih =>
    intro y hy
    unfold insertItem at hy
    split_ifs at hy with hk
    · rcases List.mem_cons.mp hy with hy | hy
      · rcases opP_cases rel a x with ho | ho
        · rw [ho] at hy
          exact Or.inr (List.mem_cons.mpr (Or.inl hy))
        · rw [ho] at hy
          exact Or.inl hy
      · exact Or.inr (List.mem_cons_of_mem _ hy)
    · rcases List.mem_cons.mp hy with hy | hy
      · exact Or.inr (List.mem_cons.mpr (Or.inl hy))
      · rcases ih y hy with hy | hy
        · exact Or.inl hy
        · exact Or.inr (List.mem_cons_of_mem _ hy)

theorem insertItem_append_no_match (x : α) :
    ∀ (P R : List α), (∀ a ∈ P, key a ≠ key x) →
      insertItem key rel x (P ++ R) = P ++ insertItem key rel x R := by
  intro P
  induction P with
  | nil => intro R _; rfl
  | cons a P ih =>
    intro R hP
    have ha : key a ≠ key x := hP a (List.mem_cons_self _ _)
    simp only [List.cons_append]
    rw [insertItem_cons, if_neg ha, ih R (fun b hb => hP b (List.mem_cons_of_mem _ hb))]

theorem insertItem_no_match (x : α) (s : List α) (h : ∀ a ∈ s, key a ≠ key x) :
    insertItem key rel x s = s ++ [x] := by
  have := insertItem_append_no_match key rel x s [] h
  simpa using this

theorem canon_append (X Y : List α) :
    canon key rel (X ++ Y) = Y.foldl (step key rel) (canon key rel X) := by
  unfold canon
  exact List.foldl_append _ _ _ _

theorem canon_snoc (L : List α) (x : α) :
    canon key rel (L ++ [x]) = step key rel (canon key rel L) x := by
  rw [canon_append]
  rfl

theorem keysOf_snoc (L : List α) (x : α) :
    keysOf key (L ++ [x]) = addKey (keysOf key L) (key x) := by
  unfold keysOf
  rw [List.map_append, addKeys_append]
  rfl

theorem pick_snoc (k : String) (L : List α) (x : α) :
    pick key rel k (L ++ [x]) = pickStep key rel k (pick key rel k L) x := by
  rw [pick_append]
  rfl

theorem mem_keysOf_iff (L : List α) (k : String) :
    k ∈ keysOf key L ↔ k ≠ "" ∧ ∃ a ∈ L, key a = k := by
  unfold keysOf
  rw [mem_addKeys_iff]
  simp only [List.not_mem_nil, false_or, List.mem_map]

theorem keysOf_nodup (L : List α) : (keysOf key L).Nodup :=
  nodup_addKeys _ [] List.nodup_nil

theorem empty_not_mem_keysOf (L : List α) : "" ∉ keysOf key L :=
  empty_not_mem_addKeys _ [] (by simp)

theorem not_empty_of_mem_keysOf (L : List α) (k : String) (h : k ∈ keysOf key L) : k ≠ "" := by
  intro hk
  subst hk
  exact empty_not_mem_keysOf key L h

theorem pick_none_of_not_mem_keysOf (L : List α) (k : String) (hk : k ≠ "")
    (h : k ∉ keysOf key L) : pick key rel k L = none := by
  refine pick_eq_none key rel k L ?_
  intro x hx hkey
  exact h ((mem_keysOf_iff key L k).mpr ⟨hk, x, hx, hkey⟩)

theorem filterMap_congr_mem {β γ : Type} (ks : List β) :
    ∀ (f g : β → Option γ), (∀ k ∈ ks, f k = g k) → ks.filterMap f = ks.filterMap g := by
  induction ks with
  | nil => intro f g _; rfl
  | cons k ks ih =>
    intro f g h
    rw [List.filterMap_cons, List.filterMap_cons, h k (List.mem_cons_self _ _),
      ih f g (fun b hb => h b (List.mem_cons_of_mem _ hb))]

theorem canon_eq_canonSpec (L : List α) : canon key rel L = canonSpec key rel L := by
  induction L using List.reverseRecOn with
  | nil => rfl
  | append_singleton L x ih =>
    rw [canon_snoc, ih]
    by_cases hx : key x = ""
    · have hkeys : keysOf key (L ++ [x]) = keysOf key L := by
        rw [keysOf_snoc]
        unfold addKey
        rw [if_pos (Or.inl hx)]
      have hstep : step key rel (canonSpec key rel L) x = canonSpec key rel L := by
        unfold step
        rw [if_pos hx]
      rw [hstep]
      unfold canonSpec
      rw [hkeys]
      refine (filterMap_congr_mem _ _ _ ?_).symm
      intro k hk
      rw [pick_snoc]
      unfold pickStep
      rw [if_neg]
      intro h
      exact (not_empty_of_mem_keysOf key L k hk) (h.symm.trans hx)
    · by_cases hmem : key x ∈ keysOf key L
      · -- the key is already present: in-place update
        have hkeys : keysOf key (L ++ [x]) = keysOf key L := by
          rw [keysOf_snoc]
          unfold addKey
          rw [if_pos (Or.inr hmem)]
        obtain ⟨K₁, K₂, hsplit⟩ := List.append_of_mem hmem
        have hnodup := keysOf_nodup key L
        rw [hsplit] at hnodup
        have hK₁ : key x ∉ K₁ := by
          intro h
          rw [List.nodup_append] at hnodup
          exact hnodup.2.2 h (List.mem_cons_self _ _)
        have hK₂ : key x ∉ K₂ := by
          rw [List.nodup_append] at hnodup
          have := hnodup.2.1
          rw [List.nodup_cons] at this
          exact this.1
        have hex : ∃ m, pick key rel (key x) L = some m := by
          rcases (mem_keysOf_iff key L (key x)).mp hmem with ⟨h1, a, ha, hka⟩
          exact pick_isSome_of_mem key rel (key x) L a ha hka
        obtain ⟨a₀, ha₀⟩ := hex
        have hmain : insertItem key rel x (canonSpec key rel L) =
            (keysOf key L).filterMap (fun k => pick key rel k (L ++ [x])) := by
          unfold canonSpec
          rw [hsplit, List.filterMap_append, List.filterMap_append, List.filterMap_cons,
            List.filterMap_cons, ha₀]
          have hpickx : pick key rel (key x) (L ++ [x]) = some (opP rel a₀ x) := by
            rw [pick_snoc, ha₀]
            unfold pickStep
            rw [if_pos rfl]
          rw [hpickx]
          have hcongr₁ : K₁.filterMap (fun k => pick key rel k (L ++ [x])) =
              K₁.filterMap (fun k => pick key rel k L) := by
            refine filterMap_congr_mem _ _ _ ?_
            intro k hk
            rw [pick_snoc]
            unfold pickStep
            rw [if_neg]
            intro h
            exact hK₁ (h ▸ hk)
          have hcongr₂ : K₂.filterMap (fun k => pick key rel k (L ++ [x])) =
              K₂.filterMap (fun k => pick key rel k L) := by
            refine filterMap_congr_mem _ _ _ ?_
            intro k hk
            rw [pick_snoc]
            unfold pickStep
            rw [if_neg]
            intro h
            exact hK₂ (h ▸ hk)
          rw [hcongr₁, hcongr₂]
          have hP : ∀ a ∈ K₁.filterMap (fun k => pick key rel k L), key a ≠ key x := by
            intro a ha
            rcases List.mem_filterMap.mp ha with ⟨k, hk, hpk⟩
            rw [pick_key_of_some key rel k L a hpk]
            intro h
            exact hK₁ (h ▸ hk)
          rw [insertItem_append_no_match key rel x _ _ hP]
          unfold insertItem
          rw [if_pos (pick_key_of_some key rel (key x) L a₀ ha₀)]
        unfold step
        rw [if_neg hx, hmain]
        unfold canonSpec
        rw [hkeys]
      · -- new key: appended at the end
        have hkeys : keysOf key (L ++ [x]) = keysOf key L ++ [key x] := by
          rw [keysOf_snoc]
          unfold addKey
          rw [if_neg (by push_neg; exact ⟨hx, hmem⟩)]
        have hP : ∀ a ∈ canonSpec key rel L, key a ≠ key x := by
          intro a ha
          rcases List.mem_filterMap.mp ha with ⟨k, hk, hpk⟩
          rw [pick_key_of_some key rel k L a hpk]
          intro h
          exact hmem (h ▸ hk)
        have hstep : step key rel (canonSpec key rel L) x = canonSpec key rel L ++ [x] := by
          unfold step
          rw [if_neg hx]
          exact insertItem_no_match key rel x _ hP
        rw [hstep]
        unfold canonSpec
        rw [hkeys, List.filterMap_append]
        have hcongr : (keysOf key L).filterMap (fun k => pick key rel k (L ++ [x])) =
            (keysOf key L).filterMap (fun k => pick key rel k L) := by
          refine filterMap_congr_mem _ _ _ ?_
          intro k hk
          rw [pick_snoc]
          unfold pickStep
          rw [if_neg]
          intro h
          exact hmem (h ▸ hk)
        rw [hcongr]
        have hpickx : pick key rel (key x) (L ++ [x]) = some x := by
          rw [pick_snoc, pick_none_of_not_mem_keysOf key rel L (key x) hx hmem]
          unfold pickStep
          rw [if_pos rfl]
        rw [List.filterMap_cons, hpickx]
        rfl

end CanonLemmas

section MergeAssoc

variable {α : Type} (key : α → String) (rel : α → ℚ)

theorem map_key_canonSpec (L : List α) : (canonSpec key rel L).map key = keysOf key L := by
  unfold canonSpec
  have h : ∀ ks : List String, (∀ k ∈ ks, k ∈ keysOf key L) →
      (ks.filterMap (fun k => pick key rel k L)).map key = ks := by
    intro ks
    induction ks with
    | nil => intro _; rfl
    | cons k ks ih =>
      intro hks
      rw [List.filterMap_cons]
      have hk := hks k (List.mem_cons_self _ _)
      rcases (mem_keysOf_iff key L k).mp hk with ⟨hne, a, ha, hka⟩
      obtain ⟨m, hm⟩ := pick_isSome_of_mem key rel k L a ha hka
      rw [hm, List.map_cons, pick_key_of_some key rel k L m hm,
        ih (fun b hb => hks b (List.mem_cons_of_mem _ hb))]
  exact h (keysOf key L) (fun k hk => hk)

theorem map_key_canon (L : List α) : (canon key rel L).map key = keysOf key L := by
  rw [canon_eq_canonSpec]
  exact map_key_canonSpec key rel L

theorem foldl_step_all_new :
    ∀ (M S : List α), (∀ a ∈ M, key a ≠ "") →
      (∀ a ∈ M, ∀ b ∈ S, key b ≠ key a) → (M.map key).Nodup →
      M.foldl (step key rel) S = S ++ M := by
  intro M
  induction M with
  | nil => intro S _ _ _; simp
  | cons x M ih =>
    intro S hne hdisj hnodup
    rw [List.foldl_cons]
    have hstep : step key rel S x = S ++ [x] := by
      unfold step
      rw [if_neg (hne x (List.mem_cons_self _ _))]
      exact insertItem_no_match key rel x S (fun b hb => hdisj x (List.mem_cons_self _ _) b hb)
    rw [hstep]
    have hM : M.foldl (step key rel) (S ++ [x]) = (S ++ [x]) ++ M := by
      refine ih (S ++ [x]) (fun a ha => hne a (List.mem_cons_of_mem _ ha)) ?_ ?_
      · intro a ha b hb
        rcases List.mem_append.mp hb with hb | hb
        · exact hdisj a (List.mem_cons_of_mem _ ha) b hb
        · simp at hb
          subst hb
          rw [List.map_cons, List.nodup_cons] at hnodup
          intro h
          exact hnodup.1 (h ▸ List.mem_map_of_mem key ha)
      · rw [List.map_cons, List.nodup_cons] at hnodup
        exact hnodup.2
    rw [hM, List.append_assoc]
    rfl

theorem canon_idem (X : List α) : canon key rel (canon key rel X) = canon key rel X := by
  have hne : ∀ a ∈ canon key rel X, key a ≠ "" := by
    intro a ha
    have : key a ∈ (canon key rel X).map key := List.mem_map_of_mem key ha
    rw [map_key_canon] at this
    exact not_empty_of_mem_keysOf key X (key a) this
  have hnodup : ((canon key rel X).map key).Nodup := by
    rw [map_key_canon]
    exact keysOf_nodup key X
  have := foldl_step_all_new key rel (canon key rel X) [] hne (by intro a _ b hb; cases hb) hnodup
  unfold canon at this ⊢
  rw [this]
  simp

theorem canon_canon_append (X Y : List α) :
    canon key rel (canon key rel X ++ Y) = canon key rel (X ++ Y) := by
  rw [canon_append, canon_append, canon_idem]

theorem foldl_pickStep_no_match (k : String) :
    ∀ (P : List α) (acc : Option α), (∀ a ∈ P, key a ≠ k) →
      P.foldl (pickStep key rel k) acc = acc := by
  intro P
  induction P with
  | nil => intro acc _; rfl
  | cons x P ih =>
    intro acc hP
    rw [List.foldl_cons]
    have hx : pickStep key rel k acc x = acc := by
      unfold pickStep
      rw [if_neg (hP x (List.mem_cons_self _ _))]
    rw [hx]
    exact ih acc (fun a ha => hP a (List.mem_cons_of_mem _ ha))

theorem foldl_pickStep_canon (k : String) (hk : k ≠ "") (Y : List α) (acc : Option α) :
    (canon key rel Y).foldl (pickStep key rel k) acc = Y.foldl (pickStep key rel k) acc := by
  rw [foldl_pickStep_eq key rel k Y acc, canon_eq_canonSpec]
  by_cases hmem : k ∈ keysOf key Y
  · obtain ⟨K₁, K₂, hsplit⟩ := List.append_of_mem hmem
    have hnodup := keysOf_nodup key Y
    rw [hsplit] at hnodup
    rw [List.nodup_append] at hnodup
    have hK₁ : k ∉ K₁ := fun h => hnodup.2.2 h (List.mem_cons_self _ _)
    have hK₂ : k ∉ K₂ := by
      have := hnodup.2.1
      rw [List.nodup_cons] at this
      exact this.1
    have hex : ∃ m, pick key rel k Y = some m := by
      rcases (mem_keysOf_iff key Y k).mp hmem with ⟨h1, a, ha, hka⟩
      exact pick_isSome_of_mem key rel k Y a ha hka
    obtain ⟨m, hm⟩ := hex
    unfold canonSpec
    rw [hsplit, List.filterMap_append, List.filterMap_cons, hm]
    have hkeyfact : ∀ (K : List String), k ∉ K →
        ∀ a ∈ K.filterMap (fun j => pick key rel j Y), key a ≠ k := by
      intro K hK a ha
      rcases List.mem_filterMap.mp ha with ⟨j, hj, hpj⟩
      rw [pick_key_of_some key rel j Y a hpj]
      intro h
      exact hK (h ▸ hj)
    rw [List.foldl_append, foldl_pickStep_no_match key rel k _ acc (hkeyfact K₁ hK₁),
      List.foldl_cons, foldl_pickStep_no_match key rel k _ _ (hkeyfact K₂ hK₂)]
    unfold pickStep pickJoin
    rw [if_pos (pick_key_of_some key rel k Y m hm)]
    cases acc <;> rfl
  · have hnone : pick key rel k Y = none := pick_none_of_not_mem_keysOf key rel Y k hk hmem
    rw [hnone]
    have hall : ∀ a ∈ canonSpec key rel Y, key a ≠ k := by
      intro a ha
      rcases List.mem_filterMap.mp ha with ⟨j, hj, hpj⟩
      rw [pick_key_of_some key rel j Y a hpj]
      intro h
      exact hmem (h ▸ hj)
    rw [foldl_pickStep_no_match key rel k _ acc hall]
    rfl

theorem keysOf_append_canon (X Y : List α) :
    keysOf key (X ++ canon key rel Y) = keysOf key (X ++ Y) := by
  unfold keysOf
  rw [List.map_append, List.map_append, addKeys_append, addKeys_append]
  have h1 : (canon key rel Y).map key = addKeys [] (Y.map key) := map_key_canon key rel Y
  rw [h1]
  rw [addKeys_addKeys]
  rfl

theorem canon_append_canon (X Y : List α) :
    canon key rel (X ++ canon key rel Y) = canon key rel (X ++ Y) := by
  rw [canon_eq_canonSpec, canon_eq_canonSpec key rel (X ++ Y)]
  unfold canonSpec
  rw [keysOf_append_canon]
  refine filterMap_congr_mem _ _ _ ?_
  intro k hk
  have hkne : k ≠ "" := not_empty_of_mem_keysOf key _ k hk
  rw [pick_append, pick_append, foldl_pickStep_canon key rel k hkne]

theorem mergeBy_assoc (A B C : List α) :
    mergeBy key rel (mergeBy key rel A B) C = mergeBy key rel A (mergeBy key rel B C) := by
  unfold mergeBy
  rw [canon_canon_append, canon_append_canon, List.append_assoc]

theorem mem_canon (L : List α) (y : α) (hy : y ∈ canon key rel L) : y ∈ L := by
  rw [canon_eq_canonSpec] at hy
  rcases List.mem_filterMap.mp hy with ⟨k, hk, hpk⟩
  exact mem_of_pick key rel k L y hpk

theorem canon_contains (L : List α) (x : α) (hx : x ∈ L) (hk : key x ≠ "") :
    ∃ y ∈ canon key rel L, key y = key x ∧ rel x ≤ rel y := by
  have hmem : key x ∈ keysOf key L := (mem_keysOf_iff key L (key x)).mpr ⟨hk, x, hx, rfl⟩
  obtain ⟨m, hm⟩ := pick_isSome_of_mem key rel (key x) L x hx rfl
  refine ⟨m, ?_, pick_key_of_some key rel (key x) L m hm, rel_le_pick key rel (key x) L x hx rfl m hm⟩
  rw [canon_eq_canonSpec]
  exact List.mem_filterMap.mpr ⟨key x, hmem, hm⟩

end MergeAssoc

deriving instance DecidableEq for Except

/-- Insert into a descending-sorted list, after every strictly greater
element and before equal ones. -/
def insertDesc {α : Type} (r : α → ℚ) (x : α) : List α → List α
  | [] => [x]
  | y :: ys => if r x < r y then y :: insertDesc r x ys else x :: y :: ys

/-- Stable descending sort by a rational key: the model of the stable JS
`Array.prototype.sort` with comparator `(a, b) => r(b) - r(a)` (any two
stable sorts of the same comparison agree). -/
def sortByDesc {α : Type} (r : α → ℚ) : List α → List α
  | [] => []
  | x :: xs => insertDesc r x (sortByDesc r xs)

/-- Model of JS `String.prototype.trim`: drop whitespace from both ends.
Implemented over the character list so that it evaluates by reduction. -/
def jsTrim (s : String) : String :=
  String.mk (((s.data.dropWhile Char.isWhitespace).reverse.dropWhile Char.isWhitespace).reverse)

/-! ## Data model of `deep-research.ts` -/

/-- Token usage as reported by a gateway call; JS numbers are rationals,
absent fields are `none`. -/
structure Usage where
  totalTokens : Option ℚ
  inputTokens : Option ℚ
  outputTokens : Option ℚ
deriving DecidableEq

/-- The shared budget object of one research invocation. -/
structure BudgetState where
  tokenBudget : Option ℚ
  usedTokens : ℚ
  reached : Bool
deriving DecidableEq

/-- The total the JS expression
`(typeof usage.totalTokens === 'number' && usage.totalTokens) || ((usage.inputTokens || 0) + (usage.outputTokens || 0))`
computes: a present and nonzero (truthy) `totalTokens` wins, otherwise the
sum of the split counts (absent counts read as 0). -/
def usageTotal (u : Usage) : ℚ :=
  match u.totalTokens with
  | some t => if t = 0 then (u.inputTokens.getD 0) + (u.outputTokens.getD 0) else t
  | none => (u.inputTokens.getD 0) + (u.outputTokens.getD 0)

/-- Core of `recordUsage`: add a positive total to `usedTokens` and set
`reached` when a positive cap is met. -/
def recordUsageCore (b : BudgetState) (u : Usage) : BudgetState :=
  if 0 < usageTotal u then
    { tokenBudget := b.tokenBudget
      usedTokens := b.usedTokens + usageTotal u
      reached :=
        match b.tokenBudget with
        | some cap => if 0 < cap ∧ cap ≤ b.usedTokens + usageTotal u then true else b.reached
        | none => b.reached }
  else b

/-- `recordUsage(budget, usage)` of `deep-research.ts`: a no-op when either
the budget or the usage object is absent. -/
def recordUsage (b : Option BudgetState) (u : Option Usage) : Option BudgetState :=
  match b, u with
  | some b, some u => some (recordUsageCore b u)
  | b, _ => b

/-- A learning paired with its reliability (`LearningWithReliability`). -/
structure LearningWithReliability where
  content : String
  reliability : ℚ
deriving DecidableEq

/-- Metadata of one fetched source (`SourceMetadata`). -/
structure SourceMetadata where
  url : String
  title : Option String
  publishDate : Option String
  domain : String
  relevanceScore : Option ℚ
  reliabilityScore : ℚ
  reliabilityReasoning : String
deriving DecidableEq

/-- `mergeWeightedLearnings`: group by exact trimmed content, keep the entry
with strictly greater reliability (the earlier entry wins ties), skip
entries whose trimmed content is empty, read values back in insertion
order.  The source stores a fresh `{content, reliability}` record, which is
the item itself. -/
def mergeWeightedLearnings (existing incoming : List LearningWithReliability) :
    List LearningWithReliability :=
  mergeBy (fun l => jsTrim l.content) (fun l => l.reliability) existing incoming

/-- `mergeSourceMetadata`: group by url, keep the record with strictly
greater reliability score (the earlier record wins ties), skip records with
a falsy url. -/
def mergeSourceMetadata (existing incoming : List SourceMetadata) : List SourceMetadata :=
  mergeBy (fun m => m.url) (fun m => m.reliabilityScore) existing incoming

/-! ## String and list utilities used by the embedding -/

/-- Decide whether `pre` is a prefix of `l`. -/
def charsPrefix : List Char → List Char → Bool
  | [], _ => true
  | _ :: _, [] => false
  | a :: as, b :: bs => a = b && charsPrefix as bs

/-- Decide whether `pat` occurs inside `l`. -/
def charsInside (pat : List Char) : List Char → Bool
  | [] => pat.isEmpty
  | c :: cs => charsPrefix pat (c :: cs) || charsInside pat cs

/-- Model of the JS `String.prototype.includes`. -/
def hasSubstr (s pat : String) : Bool := charsInside pat.data s.data

/-- Model of `Array.from(new Set(l))`: deduplicate keeping first occurrences. -/
def setDedup (l : List String) : List String :=
  l.foldl (fun acc u => if u ∈ acc then acc else acc ++ [u]) []

/-- Model of `Number.prototype.toFixed(2)` for the scores interpolated into
prompts and the Sources section. -/
def toFixed2 (q : ℚ) : String :=
  let n : ℤ := round (q * 100)
  let sign := if n < 0 then "-" else ""
  let m := n.natAbs
  let ip := m / 100
  let fp := m % 100
  sign ++ toString ip ++ "." ++ (if fp < 10 then "0" ++ toString fp else toString fp)

/-- Modelled from the spec: the prompt trimmer of the providers module
(`trimPrompt` of `src/ai/providers.ts`, absent from the given sources)
truncates a text to at most a target number of tokens using a
deterministic character heuristic, and leaves texts within the limit
unchanged. -/
def trimPrompt (text : String) (maxTokens : ℕ) : String :=
  if text.length ≤ 4 * maxTokens then text else String.mk (text.data.take (4 * maxTokens))

/-- Render a JS `x || 'N/A'` fallback for an optional string. -/
def orNA (o : Option String) : String :=
  match o with
  | some t => if t = "" then "N/A" else t
  | none => "N/A"

/-- Render a JS `x || ''` fallback for an optional string. -/
def orEmpty (o : Option String) : String := o.getD ""

/-- Optional-string truthiness: a JS `x || undefined` normalization. -/
def orNone (o : Option String) : Option String :=
  match o with
  | some t => if t = "" then none else some t
  | none => none

/-! ## Prompt construction

The prompt strings of the source are reconstructed so that model oracles
can be keyed by the exact prompt they answer. -/

/-- The preference piece of the pre-filter prompt
(`${sourcePreferences ? ... : ''}` in `filterSearchResults`): present
whenever `sourcePreferences` is truthy, with no whitespace trimming. -/
def filterPrefPiece (prefs : Option String) : String :=
  match prefs with
  | some p => if p = "" then "" else "User preferences to avoid:\n" ++ p ++ "\n"
  | none => ""

/-- The per-hit prompt of `filterSearchResults` in `src/scraper.ts`. -/
def filterPrompt (query url domain : String) (title description : Option String)
    (prefs : Option String) : String :=
  "Should we scrape this URL for: \"" ++ query ++ "\"?\n\nURL: " ++ url ++
    "\nDomain: " ++ domain ++
    "\nTitle: " ++ orNA title ++
    "\nDescription: " ++ orNA description ++
    "\n\n" ++ filterPrefPiece prefs ++
    "\n\nONLY filter out obvious junk:\n- SEO spam / clickbait listicles\n- Ad-heavy aggregator sites\n- Clearly irrelevant topics\n- Violates user preferences\n\nINCLUDE everything else - we\x27ll evaluate properly after scraping."

/-- The preference block of the reliability evaluator
(`evaluateSourcesReliability`): the `<preferences>` block is included only
when the preference text is truthy and has nonempty trim; otherwise a fixed
no-preferences sentence is used. -/
def evalPrefBlock (prefs : Option String) : String :=
  match prefs with
  | some p =>
    if jsTrim p = "" then "No special user preferences provided."
    else
      "User preferences to avoid (apply holistically, not via keywords):\n<preferences>" ++ p ++
        "</preferences>\n\nAlso return whether each source should be USED given these preferences."
  | none => "No special user preferences provided."

/-- One entry of the numbered sources list inside the evaluator prompt. -/
def evalSourceEntry (i : ℕ) (url domain title snippet : String) : String :=
  "[" ++ toString i ++ "] URL: " ++ url ++ " | Domain: " ++ domain ++ " | Title: " ++ title ++
    "\nContent (truncated):\n\"\"\"\n" ++ snippet ++ "\n\"\"\""

/-- The batched prompt of `evaluateSourcesReliability`. -/
def evalPrompt (query : String) (prefs : Option String) (sourcesList : String) : String :=
  "Evaluate the reliability and suitability of each source for the research query. For each source, provide a reliability score (0-1) and brief reasoning.\n\n" ++
    evalPrefBlock prefs ++
    "\n\nResearch query:\n<query>" ++ query ++ "</query>\n\nSources:\n" ++ sourcesList

/-! ## Fetcher (`scrapeUrl` of `src/scraper.ts`) -/

/-- The part of an HTTP response `scrapeUrl` looks at. -/
structure HttpResponse where
  ok : Bool
  contentType : Option String
  body : String
deriving DecidableEq

/-- A fetched page as returned by the scraper. -/
structure ScrapedPage where
  url : String
  title : Option String
  markdown : Option String
deriving DecidableEq

/-- Oracles for the external effects of `scrapeUrl`: the HTTP fetch
(`none` models a network error, timeout or rejected promise), the cheerio
HTML parse (`none` models a parse error), the title text, the selected
main-content HTML (`none` models a null `.html()`), and the
turndown HTML-to-markdown conversion. `Dom` abstracts cheerio documents
after junk-selector removal. -/
structure ScrapeEnv (Dom : Type) where
  fetchUrl : String → Option HttpResponse
  loadHtml : String → Option Dom
  titleText : Dom → String
  contentHtml : Dom → Option String
  turndown : String → String

/-- `scrapeUrl`: every failure path of the source — network error, non-OK
status, non-HTML content type, parse error, missing or empty content —
returns `none`; the catch-all around the body turns any thrown error into
`none` as well. -/
def scrapeUrl {Dom : Type} (e : ScrapeEnv Dom) (url : String) : Option ScrapedPage :=
  match e.fetchUrl url with
  | none => none
  | some resp =>
    if !resp.ok then none
    else
      if !(hasSubstr (orEmpty resp.contentType) ("text/html") ||
           hasSubstr (orEmpty resp.contentType) ("application/xhtml")) then
        none
      else
        match e.loadHtml resp.body with
        | none => none
        | some dom =>
          match e.contentHtml dom with
          | none => none
          | some contentH =>
            if contentH = "" then none
            else
              some { url := url, title := orNone (some (jsTrim (e.titleText dom))),
                     markdown :=
                       if jsTrim (e.turndown contentH) = "" then none
                       else some (jsTrim (e.turndown contentH)) }

/-- `scrapeUrls`: fetch all urls and drop the `null` results. -/
def scrapeUrls {Dom : Type} (e : ScrapeEnv Dom) (urls : List String) : List ScrapedPage :=
  urls.filterMap (scrapeUrl e)

/-! ## Reliability evaluation and learning extraction
(`evaluateSourcesReliability` and `processSerpResult` of `src/deep-research.ts`) -/

/-- An item of `result.data` as typed in `processSerpResult`
(`{ url?: string | null; title?: string | null; markdown?: string | null }`). -/
structure SerpResultItem where
  url : Option String
  title : Option String
  markdown : Option String
deriving DecidableEq

/-- View a scraped page as a `processSerpResult` input item. -/
def pageToItem (p : ScrapedPage) : SerpResultItem :=
  { url := some p.url, title := p.title, markdown := p.markdown }

/-- One evaluation as produced by the evaluator model call; `index` is the
index field the schema asks the model to fill in. -/
structure ModelEvaluation where
  index : ℕ
  score : ℚ
  reasoning : String
  use : Bool
  preferenceReason : Option String
deriving DecidableEq

/-- One post-processed evaluation as returned by
`evaluateSourcesReliability`. -/
structure SourceEvaluation where
  score : ℚ
  reasoning : String
  use : Bool
  preferenceReason : Option String
  domain : String
deriving DecidableEq

/-- A learning in the extractor's structured output. -/
structure ExtractedLearning where
  content : String
  confidence : ℚ
  sources : List String
deriving DecidableEq

/-- A follow-up question in the extractor's structured output. -/
structure FollowUpQuestion where
  question : String
  priority : ℚ
  reason : String
deriving DecidableEq

/-- The source-quality summary in the extractor's structured output. -/
structure SourceQuality where
  mostReliableSources : List String
  contentGaps : List String
  reliabilityAnalysis : String
deriving DecidableEq

/-- The extractor's structured output. -/
structure ExtractOutput where
  learnings : List ExtractedLearning
  followUpQuestions : List FollowUpQuestion
  sourceQuality : SourceQuality
deriving DecidableEq

/-- A SERP query planned by `generateSerpQueries`. -/
structure SerpQuery where
  query : String
  researchGoal : String
  reliabilityThreshold : ℚ
  isVerificationQuery : Bool
  relatedDirection : Option String
deriving DecidableEq

/-- A prioritized research direction. -/
structure ResearchDirection where
  question : String
  priority : ℚ
  parentGoal : Option String
deriving DecidableEq

/-- An item of the metasearch response data. -/
structure SearchResultItem where
  url : Option String
  title : Option String
  description : Option String
deriving DecidableEq

/-- A normalized search hit handed to `filterSearchResults`. -/
structure SearchHit where
  url : String
  title : Option String
  description : Option String
deriving DecidableEq

/-- Oracles for the external effects of the research orchestrator: url
parsing (`hostname url = none` models a `new URL` throw) and the model,
search, and fetch calls, each keyed by the exact prompt or input it
answers and returning `none` to model a thrown error. -/
structure ResearchEnv where
  hostname : String → Option String
  planModel : String → Option (List SerpQuery × Option Usage)
  filterModel : String → Option (Bool × Option Usage)
  searchData : String → ℕ → Option (List SearchResultItem)
  scrape : String → Option ScrapedPage
  evalModel : String → Option (List ModelEvaluation × Option Usage)
  extractModel : String → Option (ExtractOutput × Option Usage)
  reportModel : String → Option String

/-- The guarded hostname computation
`try { domain = url ? new URL(url).hostname : ''; } catch { domain = ''; }`. -/
def hostnameOrEmpty (hostname : String → Option String) (url : String) : String :=
  if url = "" then "" else (hostname url).getD ("")

/-- The unguarded hostname computation
`(r.item.url ? new URL(r.item.url).hostname : '')`: a `new URL` throw
propagates. -/
def rawHostname (hostname : String → Option String) (url : String) : Except Unit String :=
  if url = "" then Except.ok ("")
  else
    match hostname url with
    | some h => Except.ok h
    | none => Except.error ()

/-- The result mapping of `evaluateSourcesReliability`: the output list
follows the model's evaluation list order; the evaluation's `index` field
is used only to look up the item whose url yields the `domain`. -/
def evalResultsOf (hostname : String → Option String) (items : List SerpResultItem)
    (evals : List ModelEvaluation) : List SourceEvaluation :=
  evals.map fun ev =>
    { score := ev.score, reasoning := ev.reasoning, use := ev.use,
      preferenceReason := ev.preferenceReason,
      domain := hostnameOrEmpty hostname (orEmpty ((items.get? ev.index).bind (fun it => it.url))) }

/-- `evaluateSourcesReliability`: one batched model call; on success the
returned evaluations are mapped through `evalResultsOf`. -/
def evaluateSourcesReliability (env : ResearchEnv) (budget : Option BudgetState)
    (query : String) (prefs : Option String) (items : List SerpResultItem) :
    Except Unit (List SourceEvaluation) × Option BudgetState :=
  if items.isEmpty then (Except.ok [], budget)
  else
    let sourcesList := String.intercalate "\n\n" (items.enum.map fun p =>
      let url := orEmpty p.2.url
      let domain := hostnameOrEmpty env.hostname url
      evalSourceEntry p.1 url domain (orEmpty p.2.title) (trimPrompt (orEmpty p.2.markdown) 3000))
    match env.evalModel (evalPrompt query prefs sourcesList) with
    | none => (Except.error (), budget)
    | some (evals, usage) =>
      let budget1 := recordUsage budget usage
      (Except.ok (evalResultsOf env.hostname items evals), budget1)

/-- The per-index pairing `validItems.map((item, i) => ...)` of
`processSerpResult`: the i-th input item is paired with the i-th
evaluation of the evaluator's output list; an item is excluded exactly
when its positional evaluation exists and has `use === false`. -/
structure EvalPair where
  excluded : Bool
  item : SerpResultItem
  ev : Option SourceEvaluation
deriving DecidableEq

/-- The `evaluations` local of `processSerpResult`. -/
def pairEvaluations (validItems : List SerpResultItem) (rs : List SourceEvaluation) :
    List EvalPair :=
  validItems.enum.map fun p =>
    match rs.get? p.1 with
    | some ev =>
      if ev.use = false then { excluded := true, item := p.2, ev := some ev }
      else { excluded := false, item := p.2, ev := some ev }
    | none => { excluded := false, item := p.2, ev := none }

/-- The `validItems` local: `compact(result.data).filter(item => !!item.url)`. -/
def validItemsOf (data : List SerpResultItem) : List SerpResultItem :=
  data.filter (fun it => orEmpty it.url != "")

/-- The `kept` local: pairs not excluded by `use === false`. -/
def keptOf (pairs : List EvalPair) : List EvalPair :=
  pairs.filter (fun p => p.excluded == false)

/-- The `contents` local: markdown of kept items, dropped when falsy,
trimmed to 25000 tokens. -/
def contentsOf (kept : List EvalPair) : List String :=
  ((kept.filterMap (fun r => r.item.markdown)).filter (fun m => m != "")).map
    (fun c => trimPrompt c 25000)

/-- The `sourceMetadata` local of `processSerpResult`, built from every
kept item; the domain fallback `new URL(r.item.url).hostname` is not
guarded by a try/catch, so an unparsable url throws. -/
def keptMetaOne (hostname : String → Option String) (r : EvalPair) :
    Except Unit SourceMetadata :=
  match
    (match r.ev with
     | some e =>
       if e.domain = "" then rawHostname hostname (orEmpty r.item.url) else Except.ok e.domain
     | none => rawHostname hostname (orEmpty r.item.url)) with
  | Except.error e => Except.error e
  | Except.ok domain =>
    Except.ok
      { url := orEmpty r.item.url
        title := orNone r.item.title
        publishDate := none
        domain := domain
        relevanceScore := none
        reliabilityScore := match r.ev with | some e => e.score | none => 1/2
        reliabilityReasoning :=
          match r.ev with
          | some e => if e.reasoning = "" then "No reasoning provided" else e.reasoning
          | none => "No reasoning provided" }

def keptMetadata (hostname : String → Option String) (kept : List EvalPair) :
    Except Unit (List SourceMetadata) :=
  kept.mapM (keptMetaOne hostname)

/-- The `sortedContents` local of `processSerpResult`: contents paired with
metadata, sorted by reliability descending (stable) and filtered by the
reliability threshold. -/
def sortedContentsOf (cwm : List (String × SourceMetadata)) (threshold : ℚ) : List String :=
  ((sortByDesc (fun p => p.2.reliabilityScore) cwm).filter
    (fun p => decide (threshold ≤ p.2.reliabilityScore))).map (fun p => p.1)

/-- The `<contents>` block of the extractor prompt, built from the
unsorted, unfiltered `contentWithMetadata` pairs. -/
def extractContentBlock (cwm : List (String × SourceMetadata)) : String :=
  String.intercalate "\n" (cwm.map fun p =>
    "<content reliability=\"" ++ toFixed2 p.2.reliabilityScore ++ "\" reasoning=\"" ++
      p.2.reliabilityReasoning ++ "\" source=\"" ++ p.2.domain ++ "\">\n" ++ p.1 ++ "\n</content>")

/-- The research-goal piece of the extractor prompt. -/
def researchGoalPiece (researchGoal : String) : String :=
  if researchGoal = "" then ""
  else
    "Research Goal: " ++ researchGoal ++ "\nThis research is specifically aimed at: " ++
      researchGoal ++ ". Focus on findings that contribute to this goal.\n\n"

/-- The extractor prompt of `processSerpResult`. -/
def extractPrompt (query : String) (numLearnings numFollowUpQuestions : ℕ)
    (researchGoal : String) (cwm : List (String × SourceMetadata)) : String :=
  "Given the following contents from a SERP search for the query <query>" ++ query ++
    "</query>, generate a list of learnings from the contents. Return a maximum of " ++
    toString numLearnings ++
    " learnings, but feel free to return less if the contents are clear. Make sure each learning is unique and not similar to each other. The learnings should be concise and to the point, as detailed and information dense as possible. Make sure to include any entities like people, places, companies, products, things, etc in the learnings, as well as any exact metrics, numbers, or dates.\n\n" ++
    researchGoalPiece researchGoal ++
    "Weight information by source reliability - be more confident in information from highly reliable sources and more cautious about information from less reliable sources. If possible, try to verify information from less reliable sources against more reliable ones.\n\nAlso generate up to " ++
    toString numFollowUpQuestions ++
    " follow-up questions, prioritized by reliability gaps and research needs" ++
    (if researchGoal = "" then "" else ", keeping in mind the research goal") ++
    ".\n\n<contents>" ++ extractContentBlock cwm ++ "</contents>"

/-- The result record of `processSerpResult`. -/
structure ProcessedResult where
  learnings : List String
  learningConfidences : List ℚ
  followUpQuestions : List String
  followUpPriorities : List ℚ
  sourceMetadata : List SourceMetadata
  weightedLearnings : List LearningWithReliability
deriving DecidableEq

/-- The fallback evaluations used when `evaluateSourcesReliability` throws:
`score=0.5, use=true, reasoning='Evaluation failed'`. -/
def fallbackEvaluations (hostname : String → Option String) (validItems : List SerpResultItem) :
    List SourceEvaluation :=
  validItems.map fun item =>
    { score := 1/2, reasoning := "Evaluation failed", use := true, preferenceReason := none,
      domain := hostnameOrEmpty hostname (orEmpty item.url) }

/-- `processSerpResult`: evaluate sources (with graceful fallback), drop
`use === false` pages positionally, build metadata for every kept page,
and call the extractor over the kept contents whenever at least one kept
page has nonempty markdown.  The threshold-filtered `sortedContents` local
(`sortedContentsOf`) is computed by the source but never used: the
extractor prompt embeds the unsorted, unfiltered pairs. -/
def processSerpResult (env : ResearchEnv) (budget : Option BudgetState) (query : String)
    (data : List SerpResultItem) (numLearnings numFollowUpQuestions : ℕ)
    (reliabilityThreshold : ℚ) (researchGoal : String) (prefs : Option String) :
    Except Unit ProcessedResult × Option BudgetState :=
  let validItems := validItemsOf data
  match evaluateSourcesReliability env budget query prefs validItems with
  | (evalRes, budget1) =>
    let reliabilityResults :=
      match evalRes with
      | Except.ok rs => rs
      | Except.error _ => fallbackEvaluations env.hostname validItems
    let pairs := pairEvaluations validItems reliabilityResults
    let kept := keptOf pairs
    let contents := contentsOf kept
    match keptMetadata env.hostname kept with
    | Except.error _ => (Except.error (), budget1)
    | Except.ok sourceMetadata =>
      if contents.isEmpty then
        (Except.ok
          { learnings := [], learningConfidences := [], followUpQuestions := [],
            followUpPriorities := [], sourceMetadata := sourceMetadata,
            weightedLearnings := [] }, budget1)
      else
        let cwm := contents.zip sourceMetadata
        match env.extractModel
            (extractPrompt query numLearnings numFollowUpQuestions researchGoal cwm) with
        | none => (Except.error (), budget1)
        | some (out, usage) =>
          let budget2 := recordUsage budget1 usage
          let weightedLearnings : List LearningWithReliability :=
            out.learnings.map fun l => { content := l.content, reliability := l.confidence }
          let limitedFollowUps := out.followUpQuestions.take numFollowUpQuestions
          (Except.ok
            { learnings := weightedLearnings.map (fun l => l.content)
              learningConfidences := weightedLearnings.map (fun l => l.reliability)
              followUpQuestions := limitedFollowUps.map (fun q => q.question)
              followUpPriorities := limitedFollowUps.map (fun q => q.priority)
              sourceMetadata := sourceMetadata
              weightedLearnings := weightedLearnings }, budget2)

/-! ## Pre-filter (`filterSearchResults` of `src/scraper.ts`) -/

/-- `filterSearchResults`, one hit at a time (the sequential schedule of
the concurrency-limited `Promise.all`): hits with a falsy url yield
nothing; `new URL(result.url).hostname` in the prompt is unguarded, so an
unparsable url rejects the whole call; each successful model call records
its usage and keeps the url exactly when `shouldScrape` is true.  A thrown
error aborts the call but the usage already recorded stays recorded. -/
def filterSearchResults (env : ResearchEnv) (query : String) (prefs : Option String) :
    List SearchHit → Option BudgetState → Except Unit (List String) × Option BudgetState
  | [], b => (Except.ok [], b)
  | hit :: rest, b =>
    if hit.url = "" then filterSearchResults env query prefs rest b
    else
      match env.hostname hit.url with
      | none => (Except.error (), b)
      | some domain =>
        match env.filterModel (filterPrompt query hit.url domain hit.title hit.description prefs) with
        | none => (Except.error (), b)
        | some (shouldScrape, usage) =>
          let b1 := recordUsage b usage
          match filterSearchResults env query prefs rest b1 with
          | (Except.error e, b2) => (Except.error e, b2)
          | (Except.ok urls, b2) =>
            (Except.ok (if shouldScrape then hit.url :: urls else urls), b2)

/-! ## Query planning (`generateSerpQueries`) -/

/-- The conversion of parallel `learnings`/`learningReliabilities` arrays
into weighted learnings, with 0.5 as the default for a missing
reliability. -/
def seedPairs (ls : List String) (rs : List ℚ) : List LearningWithReliability :=
  ls.enum.map fun p => { content := p.2, reliability := (rs.get? p.1).getD (1/2) }

/-- The previous-learnings block of the planner prompt. -/
def serpLearningsBlock (wl : List LearningWithReliability) : String :=
  if wl.isEmpty then ""
  else
    "Here are previous learnings with their reliability scores (higher score means more reliable):\n" ++
      String.intercalate "\n" (wl.map fun l => "[Reliability: " ++ toFixed2 l.reliability ++ "] " ++ l.content) ++
      "\n\nWhen generating new queries:\n- Follow up on promising leads from reliable sources (reliability >= 0.7)\n- For less reliable information (reliability < 0.7), consider generating verification queries that are likely to find authoritative sources\n- Make each query specific and targeted to advance the research in a clear direction"

/-- The prioritized-directions block of the planner prompt, sorted by
priority descending. -/
def serpDirectionsBlock (ds : List ResearchDirection) : String :=
  if ds.isEmpty then ""
  else
    "\nPrioritized research directions to explore (higher priority = more important):\n" ++
      String.intercalate "\n"
        ((sortByDesc (fun d => d.priority) ds).map fun d =>
          "[Priority: " ++ toString d.priority ++ "] " ++ d.question ++
            (match orNone d.parentGoal with
             | some g => "\n  (From previous goal: " ++ g ++ ")"
             | none => "")) ++
      "\n\nFocus on generating queries that address these research directions, especially the higher priority ones."

/-- The source-preferences block of the planner prompt (trim-checked). -/
def serpPrefsBlock (prefs : Option String) : String :=
  match prefs with
  | some p =>
    if jsTrim p = "" then ""
    else
      "\nUser source preferences to avoid during research:\n" ++ p ++
        "\n\nPrefer authoritative, primary, and technical sources; avoid queries that are likely to surface excluded sources (e.g., thin SEO listicles, affiliate reviews) when possible."
  | none => ""

/-- The planner prompt of `generateSerpQueries`. -/
def serpPrompt (query : String) (numQueries : ℕ) (wl : List LearningWithReliability)
    (ds : List ResearchDirection) (prefs : Option String) : String :=
  "Given the following prompt from the user, generate a list of SERP queries to research the topic. Return a maximum of " ++
    toString numQueries ++
    " queries, but feel free to return less if the original prompt is clear. Make sure each query is unique and not similar to each other.\n\n" ++
    serpLearningsBlock wl ++ "\n\n" ++ serpDirectionsBlock ds ++ "\n\n" ++
    serpPrefsBlock prefs ++ "\n\n<prompt>" ++ query ++ "</prompt>"

/-- Clamp to the unit interval, as applied to each planned query's
reliability threshold. -/
def clamp01 (q : ℚ) : ℚ := max 0 (min 1 q)

/-- `generateSerpQueries`: one planner model call; thrown errors
propagate, successful calls record usage and clamp every threshold. -/
def generateSerpQueries (env : ResearchEnv) (budget : Option BudgetState) (query : String)
    (numQueries : ℕ) (learnings : List String) (learningReliabilities : List ℚ)
    (researchDirections : List ResearchDirection) (prefs : Option String) :
    Except Unit (List SerpQuery) × Option BudgetState :=
  let wl := seedPairs learnings learningReliabilities
  match env.planModel (serpPrompt query numQueries wl researchDirections prefs) with
  | none => (Except.error (), budget)
  | some (queries, usage) =>
    (Except.ok (queries.map fun q => { q with reliabilityThreshold := clamp01 q.reliabilityThreshold }),
      recordUsage budget usage)

/-! ## The research orchestrator (`deepResearch`) -/

/-- The arguments of `deepResearch` apart from `depth`, which is threaded
separately to drive the structural recursion. -/
structure DeepResearchArgs where
  query : String
  breadth : ℕ
  learnings : List String
  learningReliabilities : List ℚ
  visitedUrls : List String
  sourceMetadata : List SourceMetadata
  weightedLearnings : List LearningWithReliability
  researchDirections : List ResearchDirection
  tokenBudget : Option ℚ
  budgetState : Option BudgetState
  sourcePreferences : Option String
deriving DecidableEq

/-- The result record of `deepResearch`. -/
structure DeepResearchResult where
  learnings : List String
  learningReliabilities : List ℚ
  visitedUrls : List String
  sourceMetadata : List SourceMetadata
  weightedLearnings : List LearningWithReliability
  budget : Option BudgetState
deriving DecidableEq

/-- The accumulators one SERP-query branch contributes. -/
structure BranchAcc where
  learnings : List String
  learningReliabilities : List ℚ
  visitedUrls : List String
  sourceMetadata : List SourceMetadata
  weightedLearnings : List LearningWithReliability
deriving DecidableEq

/-- The empty accumulators returned by a budget-skipped or failed branch. -/
def emptyBranch : BranchAcc :=
  { learnings := [], learningReliabilities := [], visitedUrls := [], sourceMetadata := [],
    weightedLearnings := [] }

/-- The seeding rule of `deepResearch`: a nonempty `weightedLearnings`
argument wins; otherwise the parallel arrays are paired with default
reliability 0.5. -/
def seededWeightedLearningsOf (a : DeepResearchArgs) : List LearningWithReliability :=
  if a.weightedLearnings.isEmpty then seedPairs a.learnings a.learningReliabilities
  else a.weightedLearnings

/-- The budget initialization of `deepResearch`:
`typeof tokenBudget === 'number' || budgetState ? budgetState ?? { tokenBudget, usedTokens: 0, reached: false } : undefined`. -/
def initialBudget (a : DeepResearchArgs) : Option BudgetState :=
  if a.tokenBudget.isSome || a.budgetState.isSome then
    some (a.budgetState.getD { tokenBudget := a.tokenBudget, usedTokens := 0, reached := false })
  else none

/-- Truthy `reached` check on an optional budget (`budget?.reached`). -/
def budgetReached (b : Option BudgetState) : Bool :=
  match b with
  | some bs => bs.reached
  | none => false

/-- The synthesized child topic for the recursive call. -/
def nextQueryOf (researchGoal : String) (followUps : List String) : String :=
  jsTrim ("\nPrevious research goal: " ++ researchGoal ++ "\nFollow-up research directions: " ++
    String.join (followUps.map (fun q => "\n" ++ q)) ++ "\n")

/-- Follow-up questions promoted to research directions; a falsy priority
(`|| 3`) defaults to 3. -/
def promoteFollowUps (researchGoal : String) (questions : List String) (priorities : List ℚ) :
    List ResearchDirection :=
  questions.enum.map fun p =>
    { question := p.2
      priority :=
        match priorities.get? p.1 with
        | some pr => if pr = 0 then 3 else pr
        | none => 3
      parentGoal := some researchGoal }

/-- One SERP-query branch of `deepResearch` step 2 (the sequential
schedule): skip immediately when the budget is already reached; search,
pre-filter and scrape, then process; errors up to and including
`processSerpResult` are caught and yield empty accumulators, while an
error inside the recursive call propagates (the source returns the inner
promise without awaiting it inside the try block). -/
def runBranch (env : ResearchEnv) (recurse : DeepResearchArgs → Except Unit DeepResearchResult)
    (depth : ℕ) (a : DeepResearchArgs) (normWL : List LearningWithReliability)
    (normSM : List SourceMetadata) (q : SerpQuery) (b : Option BudgetState) :
    Except Unit (BranchAcc × Option BudgetState) :=
  if budgetReached b then Except.ok (emptyBranch, b)
  else
    match env.searchData q.query (if q.isVerificationQuery then 8 else 5) with
    | none => Except.ok (emptyBranch, b)
    | some searchItems =>
      let hits := searchItems.map fun it =>
        { url := orEmpty it.url, title := it.title, description := it.description : SearchHit }
      match filterSearchResults env q.query a.sourcePreferences hits b with
      | (Except.error _, b1) => Except.ok (emptyBranch, b1)
      | (Except.ok urls, b1) =>
        let scraped := urls.filterMap env.scrape
        let data := scraped.map pageToItem
        let newUrls := (scraped.map (fun p => p.url)).filter (fun u => u != "")
        let newBreadth := (a.breadth + 1) / 2
        let newDepth := depth - 1
        match processSerpResult env b1 q.query data 3 newBreadth q.reliabilityThreshold
            q.researchGoal a.sourcePreferences with
        | (Except.error _, b2) => Except.ok (emptyBranch, b2)
        | (Except.ok pr, b2) =>
          let allWeighted := mergeWeightedLearnings normWL pr.weightedLearnings
          let allLearnings := allWeighted.map (fun l => l.content)
          let allRel := allWeighted.map (fun l => l.reliability)
          let allUrls := setDedup (a.visitedUrls ++ newUrls)
          let allSM := mergeSourceMetadata normSM pr.sourceMetadata
          let acc : BranchAcc :=
            { learnings := allLearnings, learningReliabilities := allRel,
              visitedUrls := allUrls, sourceMetadata := allSM, weightedLearnings := allWeighted }
          if budgetReached b2 then Except.ok (acc, b2)
          else if 0 < newDepth then
            match recurse
                { query := nextQueryOf q.researchGoal pr.followUpQuestions
                  breadth := newBreadth
                  learnings := allLearnings
                  learningReliabilities := allRel
                  visitedUrls := allUrls
                  sourceMetadata := allSM
                  weightedLearnings := allWeighted
                  researchDirections :=
                    promoteFollowUps q.researchGoal pr.followUpQuestions pr.followUpPriorities
                  tokenBudget := a.tokenBudget
                  budgetState := b2
                  sourcePreferences := a.sourcePreferences } with
            | Except.error e => Except.error e
            | Except.ok r =>
              Except.ok
                ({ learnings := r.learnings, learningReliabilities := r.learningReliabilities,
                   visitedUrls := r.visitedUrls, sourceMetadata := r.sourceMetadata,
                   weightedLearnings := r.weightedLearnings }, r.budget)
          else Except.ok (acc, b2)

/-- All branches of step 2 in order, threading the shared budget. -/
def runQueries (env : ResearchEnv) (recurse : DeepResearchArgs → Except Unit DeepResearchResult)
    (depth : ℕ) (a : DeepResearchArgs) (normWL : List LearningWithReliability)
    (normSM : List SourceMetadata) :
    List SerpQuery → Option BudgetState → Except Unit (List BranchAcc × Option BudgetState)
  | [], b => Except.ok ([], b)
  | q :: rest, b =>
    match runBranch env recurse depth a normWL normSM q b with
    | Except.error e => Except.error e
    | Except.ok (acc, b1) =>
      match runQueries env recurse depth a normWL normSM rest b1 with
      | Except.error e => Except.error e
      | Except.ok (accs, b2) => Except.ok (acc :: accs, b2)

/-- The body of one `deepResearch` node, parameterized by the recursive
call used for child nodes (`recurse` is only consulted when
`depth - 1 > 0`). -/
def dRBody (env : ResearchEnv) (depth : ℕ)
    (recurse : DeepResearchArgs → Except Unit DeepResearchResult) (a : DeepResearchArgs) :
    Except Unit DeepResearchResult :=
  let seeded := seededWeightedLearningsOf a
  let normWL := mergeWeightedLearnings [] seeded
  let normLearnings := normWL.map (fun l => l.content)
  let normRel := normWL.map (fun l => l.reliability)
  let normSM := mergeSourceMetadata [] a.sourceMetadata
  let budget0 := initialBudget a
  match generateSerpQueries env budget0 a.query a.breadth normLearnings normRel
      a.researchDirections a.sourcePreferences with
  | (Except.error _, _) => Except.error ()
  | (Except.ok serpQueries, budget1) =>
    if serpQueries.isEmpty then
      Except.ok
        { learnings := normLearnings, learningReliabilities := normRel,
          visitedUrls := a.visitedUrls, sourceMetadata := normSM,
          weightedLearnings := normWL, budget := budget1 }
    else
      match runQueries env recurse depth a normWL normSM serpQueries budget1 with
      | Except.error e => Except.error e
      | Except.ok (accs, budget2) =>
        let combinedWL := mergeWeightedLearnings [] (accs.flatMap (fun r => r.weightedLearnings))
        Except.ok
          { learnings := combinedWL.map (fun l => l.content)
            learningReliabilities := combinedWL.map (fun l => l.reliability)
            visitedUrls := setDedup (accs.flatMap (fun r => r.visitedUrls))
            sourceMetadata := mergeSourceMetadata [] (accs.flatMap (fun r => r.sourceMetadata))
            weightedLearnings := combinedWL
            budget := budget2 }

/-- `deepResearch` by structural recursion on `depth`; the recursion is
taken only when `depth - 1 > 0`, so the dummy recursion passed at depths
0 and 1 is never consulted. -/
def dRGo (env : ResearchEnv) : ℕ → DeepResearchArgs → Except Unit DeepResearchResult
  | 0, a => dRBody env 0 (fun _ => Except.error ()) a
  | 1, a => dRBody env 1 (fun _ => Except.error ()) a
  | d + 2, a => dRBody env (d + 2) (dRGo env (d + 1)) a

/-- `deepResearch(query, breadth, depth, ...)`. -/
def deepResearch (env : ResearchEnv) (depth : ℕ) (a : DeepResearchArgs) :
    Except Unit DeepResearchResult :=
  dRGo env depth a

/-! ## Report writer (`writeFinalReport`) -/

/-- The final-report prompt. -/
def finalReportPrompt (prompt : String) (learnings : List String) : String :=
  let learningsString :=
    trimPrompt (String.intercalate "\n" (learnings.map fun l => "<learning>\n" ++ l ++ "\n</learning>")) 150000
  "Given the following prompt from the user, write a final report on the topic using the learnings from research. Make it as detailed as possible, aim for 3 or more pages, include ALL the learnings from research. Consider source reliability when drawing conclusions.\n\n<prompt>" ++
    prompt ++ "</prompt>\n\nHere are all the learnings from previous research:\n\n<learnings>\n" ++
    learningsString ++ "\n</learnings>"

/-- One entry of the Sources section. -/
def sourcesEntry (m : SourceMetadata) : String :=
  let parts : List String :=
    ["- " ++ m.url,
     "  - Reliability: " ++ toFixed2 m.reliabilityScore ++ " - " ++ m.reliabilityReasoning] ++
    (match m.title with
     | some t => ["  - Title: " ++ t]
     | none => []) ++
    (match m.publishDate with
     | some d => ["  - Published: " ++ d]
     | none => [])
  String.intercalate "\n" parts

/-- The Sources section appended to the report: all metadata records
sorted by reliability descending. -/
def sourcesSection (sourceMetadata : List SourceMetadata) : String :=
  "\n\n## Sources\n\n" ++
    String.intercalate "\n\n"
      ((sortByDesc (fun m => m.reliabilityScore) sourceMetadata).map sourcesEntry)

/-- `writeFinalReport`: one gateway call over the aggregated learnings,
concatenated with the Sources section.  The function takes no budget and
performs no budget check; its usage is not recorded. -/
def writeFinalReport (env : ResearchEnv) (prompt : String) (learnings : List String)
    (sourceMetadata : List SourceMetadata) : Except Unit String :=
  match env.reportModel (finalReportPrompt prompt learnings) with
  | none => Except.error ()
  | some reportMarkdown => Except.ok (reportMarkdown ++ sourcesSection sourceMetadata)

/-! ## Claim C9: associativity of the two merges -/

/-- C9: both merge operations are associative:
`merge(merge(A,B),C) = merge(A,merge(B,C))` holds for
`mergeWeightedLearnings` on arbitrary lists of weighted learnings and for
`mergeSourceMetadata` on arbitrary lists of source-metadata records,
as equality of the produced lists (values and insertion order). -/
theorem merge_associativity :
    (∀ A B C : List LearningWithReliability,
      mergeWeightedLearnings (mergeWeightedLearnings A B) C =
        mergeWeightedLearnings A (mergeWeightedLearnings B C)) ∧
    (∀ A B C : List SourceMetadata,
      mergeSourceMetadata (mergeSourceMetadata A B) C =
        mergeSourceMetadata A (mergeSourceMetadata B C)) := by
  constructor
  · intro A B C
    unfold mergeWeightedLearnings
    exact mergeBy_assoc _ _ A B C
  · intro A B C
    unfold mergeSourceMetadata
    exact mergeBy_assoc _ _ A B C

/-! ## Claim C5: `recordUsage` -/

/-- C5 counterexample: a usage record carrying `totalTokens = 0` together
with split counts 5 and 5.  The claim says `record` adds the usage total —
`totalTokens` when present — i.e. adds 0 here; the code falls through the
falsy 0 and adds the split sum 10. -/
theorem recordUsage_zero_total_counterexample :
    recordUsage (some { tokenBudget := none, usedTokens := 0, reached := false })
        (some { totalTokens := some 0, inputTokens := some 5, outputTokens := some 5 }) =
      some { tokenBudget := none, usedTokens := 10, reached := false } ∧
    (10 : ℚ) ≠ 0 := by
  constructor
  · norm_num [recordUsage, recordUsageCore, usageTotal]
  · norm_num

/-- C5 amended: `record(usage)` computes the total as `totalTokens` when
that field is a nonzero number and as `inputTokens + outputTokens`
otherwise; when the total is positive it adds it to `usedTokens` and sets
`reached` exactly when a positive cap is set and the new `usedTokens`
meets it, never unsetting `reached`; when the total is not positive it
changes nothing.  In particular `usedTokens` never decreases and `reached`
is sticky. -/
theorem recordUsage_amended (b : BudgetState) (u : Usage) :
    (recordUsageCore b u).tokenBudget = b.tokenBudget ∧
    b.usedTokens ≤ (recordUsageCore b u).usedTokens ∧
    (0 < usageTotal u →
      (recordUsageCore b u).usedTokens = b.usedTokens + usageTotal u) ∧
    (usageTotal u ≤ 0 → recordUsageCore b u = b) ∧
    ((recordUsageCore b u).reached = true ↔
      b.reached = true ∨
        (0 < usageTotal u ∧
          ∃ cap, b.tokenBudget = some cap ∧ 0 < cap ∧ cap ≤ b.usedTokens + usageTotal u)) := by
  unfold recordUsageCore
  by_cases hpos : 0 < usageTotal u
  · rw [if_pos hpos]
    refine ⟨rfl, by simp; linarith, fun _ => rfl, fun hle => absurd hpos (not_lt.mpr hle), ?_⟩
    cases hcap : b.tokenBudget with
    | none =>
      simp only
      constructor
      · intro h
        exact Or.inl h
      · rintro (h | ⟨hp, cap, hc, hcl⟩)
        · exact h
        · exact absurd hc (by simp)
    | some cap =>
      simp only
      split_ifs with hc
      · simp only [true_iff]
        exact Or.inr ⟨hpos, cap, rfl, hc.1, hc.2⟩
      · constructor
        · intro h
          exact Or.inl h
        · rintro (h | ⟨hp, cap', hc', hp', hle'⟩)
          · exact h
          · injection hc' with hcc
            subst hcc
            exact absurd ⟨hp', hle'⟩ hc
  · rw [if_neg hpos]
    refine ⟨rfl, le_refl _, fun h => absurd h hpos, fun _ => rfl, ?_⟩
    constructor
    · intro h
      exact Or.inl h
    · rintro (h | ⟨hp, _⟩)
      · exact h
      · exact absurd hp hpos

/-- C5 amended, witnessed at a concrete budget and usage record. -/
theorem recordUsage_amended_witness :
    (recordUsageCore { tokenBudget := some 5, usedTokens := 0, reached := false }
        { totalTokens := none, inputTokens := some 3, outputTokens := some 3 }).tokenBudget =
      some 5 ∧
    (0 : ℚ) ≤ (recordUsageCore { tokenBudget := some 5, usedTokens := 0, reached := false }
        { totalTokens := none, inputTokens := some 3, outputTokens := some 3 }).usedTokens ∧
    ((0 : ℚ) <
        usageTotal { totalTokens := none, inputTokens := some 3, outputTokens := some 3 } →
      (recordUsageCore { tokenBudget := some 5, usedTokens := 0, reached := false }
          { totalTokens := none, inputTokens := some 3, outputTokens := some 3 }).usedTokens =
        0 + usageTotal { totalTokens := none, inputTokens := some 3, outputTokens := some 3 }) ∧
    (usageTotal { totalTokens := none, inputTokens := some 3, outputTokens := some 3 } ≤ 0 →
      recordUsageCore { tokenBudget := some 5, usedTokens := 0, reached := false }
          { totalTokens := none, inputTokens := some 3, outputTokens := some 3 } =
        { tokenBudget := some 5, usedTokens := 0, reached := false }) ∧
    ((recordUsageCore { tokenBudget := some 5, usedTokens := 0, reached := false }
          { totalTokens := none, inputTokens := some 3, outputTokens := some 3 }).reached =
        true ↔
      false = true ∨
        ((0 : ℚ) <
            usageTotal { totalTokens := none, inputTokens := some 3, outputTokens := some 3 } ∧
          ∃ cap, (some 5 : Option ℚ) = some cap ∧ 0 < cap ∧
            cap ≤ 0 + usageTotal { totalTokens := none, inputTokens := some 3, outputTokens := some 3 })) :=
  recordUsage_amended { tokenBudget := some 5, usedTokens := 0, reached := false }
    { totalTokens := none, inputTokens := some 3, outputTokens := some 3 }

/-! ## Claim C10: seeding of `deepResearch` -/

/-- C10: when the `weightedLearnings` argument is nonempty it alone seeds
the node and the parallel `learnings`/`learningReliabilities` arrays are
ignored; when it is empty the seed pairs `learnings[i]` with
`learningReliabilities[i]`, defaulting every missing reliability to 0.5. -/
theorem deepResearch_seeding (a : DeepResearchArgs) :
    (a.weightedLearnings ≠ [] → seededWeightedLearningsOf a = a.weightedLearnings) ∧
    (a.weightedLearnings = [] → ∀ i : ℕ,
      (seededWeightedLearningsOf a).get? i =
        (a.learnings.get? i).map
          (fun c => { content := c, reliability := (a.learningReliabilities.get? i).getD (1/2) })) := by
  constructor
  · intro h
    unfold seededWeightedLearningsOf
    rw [if_neg (by simpa using h)]
  · intro h i
    unfold seededWeightedLearningsOf
    rw [if_pos (by simpa using h)]
    unfold seedPairs
    rw [List.get?_eq_getElem?, List.getElem?_map, List.getElem?_enum,
      ← List.get?_eq_getElem?]
    cases a.learnings.get? i <;> rfl

/-- C10 witnessed at concrete arguments: a nonempty `weightedLearnings`
wins over the parallel arrays, and with it empty the arrays are paired
with the 0.5 default for the missing second reliability. -/
theorem deepResearch_seeding_witness :
    seededWeightedLearningsOf
        { query := "q", breadth := 1, learnings := ["x"], learningReliabilities := [1]
          visitedUrls := [], sourceMetadata := [],
          weightedLearnings := [{ content := "w", reliability := 0 }]
          researchDirections := [], tokenBudget := none, budgetState := none,
          sourcePreferences := none } =
      [{ content := "w", reliability := 0 }] ∧
    (seededWeightedLearningsOf
        { query := "q", breadth := 1, learnings := ["x", "y"], learningReliabilities := [1]
          visitedUrls := [], sourceMetadata := [], weightedLearnings := []
          researchDirections := [], tokenBudget := none, budgetState := none,
          sourcePreferences := none }).get? 1 =
      some { content := "y", reliability := 1/2 } := by
  constructor
  · exact (deepResearch_seeding _).1 (by simp)
  · rw [(deepResearch_seeding _).2 rfl 1]
    rfl

/-! ## Claim C6: the final report is not budget-gated -/

/-- C6: `writeFinalReport` performs no budget check: for every budget
state — in particular any state with `reached = true` — it makes its
single gateway call and returns the report markdown concatenated with the
Sources section; the budget state does not occur among its inputs, so the
output cannot depend on it. -/
theorem writeFinalReport_not_budget_gated (budget : BudgetState)
    (hreached : budget.reached = true) (env : ResearchEnv) (prompt : String)
    (learnings : List String) (sourceMetadata : List SourceMetadata) (report : String)
    (hcall : env.reportModel (finalReportPrompt prompt learnings) = some report) :
    writeFinalReport env prompt learnings sourceMetadata =
      Except.ok (report ++ sourcesSection sourceMetadata) := by
  unfold writeFinalReport
  rw [hcall]

/-- C6 witnessed with an exhausted budget and a concrete gateway answer. -/
theorem writeFinalReport_not_budget_gated_witness :
    writeFinalReport
        { hostname := fun _ => none, planModel := fun _ => none, filterModel := fun _ => none,
          searchData := fun _ _ => none, scrape := fun _ => none, evalModel := fun _ => none,
          extractModel := fun _ => none, reportModel := fun _ => some ("REPORT") }
        "topic" [] [] =
      Except.ok ("REPORT" ++ sourcesSection []) :=
  writeFinalReport_not_budget_gated
    { tokenBudget := some 1, usedTokens := 5, reached := true } rfl
    { hostname := fun _ => none, planModel := fun _ => none, filterModel := fun _ => none,
      searchData := fun _ _ => none, scrape := fun _ => none, evalModel := fun _ => none,
      extractModel := fun _ => none, reportModel := fun _ => some ("REPORT") }
    "topic" [] [] "REPORT" rfl

/-! ## Claim C7: the fetcher returns null on every failure -/

/-- C7: `scrapeUrl` yields `none` on every failure path — network error or
timeout, non-OK status, a content type containing neither `text/html` nor
`application/xhtml`, an HTML parse error, and missing or empty extracted
content — and whenever it returns a page whose `markdown` field is
present, that markdown is nonempty.  The embedding is a total function,
reflecting that the body's catch-all converts every thrown error into
`null` rather than an exception. -/
theorem scrapeUrl_error_handling {Dom : Type} (e : ScrapeEnv Dom) (url : String) :
    (e.fetchUrl url = none → scrapeUrl e url = none) ∧
    (∀ resp, e.fetchUrl url = some resp → resp.ok = false → scrapeUrl e url = none) ∧
    (∀ resp, e.fetchUrl url = some resp →
      hasSubstr (orEmpty resp.contentType) ("text/html") = false →
      hasSubstr (orEmpty resp.contentType) ("application/xhtml") = false →
      scrapeUrl e url = none) ∧
    (∀ resp, e.fetchUrl url = some resp → resp.ok = true →
      e.loadHtml resp.body = none → scrapeUrl e url = none) ∧
    (∀ resp dom, e.fetchUrl url = some resp → e.loadHtml resp.body = some dom →
      (e.contentHtml dom = none ∨ e.contentHtml dom = some ("")) →
      scrapeUrl e url = none) ∧
    (∀ p m, scrapeUrl e url = some p → p.markdown = some m → m ≠ "") := by
  refine ⟨?_, ?_, ?_, ?_, ?_, ?_⟩
  · intro h
    simp [scrapeUrl, h]
  · intro resp hresp hok
    simp [scrapeUrl, hresp, hok]
  · intro resp hresp h1 h2
    cases hok : resp.ok
    · simp [scrapeUrl, hresp, hok]
    · simp [scrapeUrl, hresp, hok, h1, h2]
  · intro resp hresp hok hload
    simp only [scrapeUrl, hresp, hok]
    split_ifs <;> simp [hload]
  · intro resp dom hresp hload hch
    cases hok : resp.ok
    · simp [scrapeUrl, hresp, hok]
    · rcases hch with hch | hch <;>
        [skip; skip] <;>
        simp only [scrapeUrl, hresp, hok, hload, hch] <;>
        split_ifs <;> simp
  · intro p m hp hm
    unfold scrapeUrl at hp
    split at hp
    · cases hp
    · split_ifs at hp
      all_goals split at hp
      all_goals try exact Option.noConfusion hp
      all_goals split at hp
      all_goals try exact Option.noConfusion hp
      all_goals split_ifs at hp with hche
      all_goals try exact Option.noConfusion hp
      all_goals injection hp with hpe
      all_goals subst hpe
      all_goals simp only at hm
      all_goals first
        | exact Option.noConfusion hm
        | (injection hm with hme
           subst hme
           assumption)

/-! ## Supporting lemmas for the orchestrator claims -/

theorem mem_foldl_dedup (u : String) :
    ∀ (l acc : List String),
      u ∈ l.foldl (fun acc v => if v ∈ acc then acc else acc ++ [v]) acc ↔ u ∈ acc ∨ u ∈ l := by
  intro l
  induction l with
  | nil => intro acc; simp
  | cons v l ih =>
    intro acc
    rw [List.foldl_cons, ih]
    by_cases hv : v ∈ acc
    · rw [if_pos hv]
      constructor
      · rintro (h | h)
        · exact Or.inl h
        · exact Or.inr (List.mem_cons_of_mem _ h)
      · rintro (h | h)
        · exact Or.inl h
        · rcases List.mem_cons.mp h with rfl | h
          · exact Or.inl hv
          · exact Or.inr h
    · rw [if_neg hv]
      simp only [List.mem_append, List.mem_singleton, List.mem_cons]
      tauto

theorem mem_setDedup (l : List String) (u : String) : u ∈ setDedup l ↔ u ∈ l := by
  unfold setDedup
  rw [mem_foldl_dedup]
  simp

theorem mergeWeightedLearnings_contains (A B : List LearningWithReliability)
    (x : LearningWithReliability) (hx : x ∈ A ++ B) (hk : jsTrim x.content ≠ "") :
    ∃ y ∈ mergeWeightedLearnings A B, jsTrim y.content = jsTrim x.content ∧
      x.reliability ≤ y.reliability := by
  unfold mergeWeightedLearnings mergeBy
  exact canon_contains (fun l => jsTrim l.content) (fun l => l.reliability) (A ++ B) x hx hk

theorem mem_mergeWeightedLearnings (A B : List LearningWithReliability)
    (x : LearningWithReliability) (hx : x ∈ mergeWeightedLearnings A B) : x ∈ A ++ B := by
  unfold mergeWeightedLearnings mergeBy at hx
  exact mem_canon _ _ (A ++ B) x hx

theorem mergeSourceMetadata_contains (A B : List SourceMetadata) (x : SourceMetadata)
    (hx : x ∈ A ++ B) (hk : x.url ≠ "") :
    ∃ y ∈ mergeSourceMetadata A B, y.url = x.url ∧ x.reliabilityScore ≤ y.reliabilityScore := by
  unfold mergeSourceMetadata mergeBy
  exact canon_contains (fun m => m.url) (fun m => m.reliabilityScore) (A ++ B) x hx hk

theorem mem_mergeSourceMetadata (A B : List SourceMetadata) (x : SourceMetadata)
    (hx : x ∈ mergeSourceMetadata A B) : x ∈ A ++ B := by
  unfold mergeSourceMetadata mergeBy at hx
  exact mem_canon _ _ (A ++ B) x hx

/-- Containment of the seeded accumulators in a research result, up to the
merge rules: every seeded learning with a nonempty trimmed content is
represented by a learning of the same key with at least its reliability,
every seeded metadata record with a nonempty url by a record of the same
url with at least its score, and every seeded visited url is present. -/
def containsSeeds (a : DeepResearchArgs) (r : DeepResearchResult) : Prop :=
  (∀ s ∈ seededWeightedLearningsOf a, jsTrim s.content ≠ "" →
    ∃ m ∈ r.weightedLearnings,
      jsTrim m.content = jsTrim s.content ∧ s.reliability ≤ m.reliability) ∧
  (∀ sm ∈ a.sourceMetadata, sm.url ≠ "" →
    ∃ m ∈ r.sourceMetadata, m.url = sm.url ∧ sm.reliabilityScore ≤ m.reliabilityScore) ∧
  (∀ u ∈ a.visitedUrls, u ∈ r.visitedUrls)

/-- Containment of the seeded accumulators in one branch's accumulators. -/
def branchContainsSeeds (a : DeepResearchArgs) (acc : BranchAcc) : Prop :=
  (∀ s ∈ seededWeightedLearningsOf a, jsTrim s.content ≠ "" →
    ∃ m ∈ acc.weightedLearnings,
      jsTrim m.content = jsTrim s.content ∧ s.reliability ≤ m.reliability) ∧
  (∀ sm ∈ a.sourceMetadata, sm.url ≠ "" →
    ∃ m ∈ acc.sourceMetadata, m.url = sm.url ∧ sm.reliabilityScore ≤ m.reliabilityScore) ∧
  (∀ u ∈ a.visitedUrls, u ∈ acc.visitedUrls)

/-- A research result with all five accumulators empty. -/
def emptyResearchAcc (r : DeepResearchResult) : Prop :=
  r.learnings = [] ∧ r.learningReliabilities = [] ∧ r.visitedUrls = [] ∧
    r.sourceMetadata = [] ∧ r.weightedLearnings = []

theorem mem_seededWeightedLearningsOf (a : DeepResearchArgs) (y : LearningWithReliability)
    (hy : y ∈ a.weightedLearnings) : y ∈ seededWeightedLearningsOf a := by
  unfold seededWeightedLearningsOf
  rw [if_neg]
  · exact hy
  · simp only [List.isEmpty_iff]
    intro hnil
    rw [hnil] at hy
    cases hy

theorem runBranch_seeds (env : ResearchEnv)
    (recurse : DeepResearchArgs → Except Unit DeepResearchResult)
    (depth : ℕ) (a : DeepResearchArgs) (normWL : List LearningWithReliability)
    (normSM : List SourceMetadata) (q : SerpQuery) (b : Option BudgetState)
    (hnormWL : ∀ s ∈ seededWeightedLearningsOf a, jsTrim s.content ≠ "" →
      ∃ m ∈ normWL, jsTrim m.content = jsTrim s.content ∧ s.reliability ≤ m.reliability)
    (hnormSM : ∀ sm ∈ a.sourceMetadata, sm.url ≠ "" →
      ∃ m ∈ normSM, m.url = sm.url ∧ sm.reliabilityScore ≤ m.reliabilityScore)
    (hrec : ∀ a' r', recurse a' = Except.ok r' → containsSeeds a' r' ∨ emptyResearchAcc r')
    (acc : BranchAcc) (b1 : Option BudgetState)
    (h : runBranch env recurse depth a normWL normSM q b = Except.ok (acc, b1)) :
    branchContainsSeeds a acc ∨ acc = emptyBranch := by
  have haccseed : ∀ (pr : ProcessedResult) (newUrls : List String),
      branchContainsSeeds a
        { learnings := (mergeWeightedLearnings normWL pr.weightedLearnings).map (fun l => l.content),
          learningReliabilities :=
            (mergeWeightedLearnings normWL pr.weightedLearnings).map (fun l => l.reliability),
          visitedUrls := setDedup (a.visitedUrls ++ newUrls),
          sourceMetadata := mergeSourceMetadata normSM pr.sourceMetadata,
          weightedLearnings := mergeWeightedLearnings normWL pr.weightedLearnings } := by
    intro pr newUrls
    refine ⟨?_, ?_, ?_⟩
    · intro s hs hk
      obtain ⟨m, hm, hkey, hrel⟩ := hnormWL s hs hk
      obtain ⟨y, hy, hykey, hyrel⟩ :=
        mergeWeightedLearnings_contains normWL pr.weightedLearnings m
          (List.mem_append_left _ hm) (by rw [hkey]; exact hk)
      exact ⟨y, hy, by rw [hykey, hkey], le_trans hrel hyrel⟩
    · intro sm hsm hk
      obtain ⟨m, hm, hkey, hrel⟩ := hnormSM sm hsm hk
      obtain ⟨y, hy, hykey, hyrel⟩ :=
        mergeSourceMetadata_contains normSM pr.sourceMetadata m
          (List.mem_append_left _ hm) (by rw [hkey]; exact hk)
      exact ⟨y, hy, by rw [hykey, hkey], le_trans hrel hyrel⟩
    · intro u hu
      exact (mem_setDedup _ u).mpr (List.mem_append_left _ hu)
  simp only [runBranch] at h
  split at h
  · exact Or.inr (by injection h with h1; injection h1 with h2 h3; exact h2.symm)
  · split at h
    · exact Or.inr (by injection h with h1; injection h1 with h2 h3; exact h2.symm)
    · split at h
      · exact Or.inr (by injection h with h1; injection h1 with h2 h3; exact h2.symm)
      · split at h
        · exact Or.inr (by injection h with h1; injection h1 with h2 h3; exact h2.symm)
        · rename_i pr b2 hpr
          split at h
          · left
            injection h with h1
            injection h1 with h2 h3
            rw [← h2]
            exact haccseed pr _
          · split at h
            · split at h
              · exact Except.noConfusion h
              · rename_i rr hrr
                injection h with h1
                injection h1 with h2 h3
                rcases hrec _ rr hrr with ⟨c1, c2, c3⟩ | ⟨e1, e2, e3, e4, e5⟩
                · left
                  rw [← h2]
                  refine ⟨?_, ?_, ?_⟩
                  · intro s hs hk
                    obtain ⟨m, hm, hkey, hrel⟩ := hnormWL s hs hk
                    obtain ⟨y, hy, hykey, hyrel⟩ :=
                      mergeWeightedLearnings_contains normWL pr.weightedLearnings m
                        (List.mem_append_left _ hm) (by rw [hkey]; exact hk)
                    obtain ⟨m₂, hm₂, hk₂, hr₂⟩ :=
                      c1 y (mem_seededWeightedLearningsOf _ y hy)
                        (by rw [hykey, hkey]; exact hk)
                    exact ⟨m₂, hm₂, by rw [hk₂, hykey, hkey],
                      le_trans hrel (le_trans hyrel hr₂)⟩
                  · intro sm hsm hk
                    obtain ⟨m, hm, hkey, hrel⟩ := hnormSM sm hsm hk
                    obtain ⟨y, hy, hykey, hyrel⟩ :=
                      mergeSourceMetadata_contains normSM pr.sourceMetadata m
                        (List.mem_append_left _ hm) (by rw [hkey]; exact hk)
                    obtain ⟨m₂, hm₂, hk₂, hr₂⟩ :=
                      c2 y hy (by rw [hykey, hkey]; exact hk)
                    exact ⟨m₂, hm₂, by rw [hk₂, hykey, hkey],
                      le_trans hrel (le_trans hyrel hr₂)⟩
                  · intro u hu
                    exact c3 u ((mem_setDedup _ u).mpr (List.mem_append_left _ hu))
                · right
                  rw [← h2]
                  simp [emptyBranch, e3, e4, e5, e1, e2]
            · left
              injection h with h1
              injection h1 with h2 h3
              rw [← h2]
              exact haccseed pr _

theorem runQueries_seeds (env : ResearchEnv)
    (recurse : DeepResearchArgs → Except Unit DeepResearchResult)
    (depth : ℕ) (a : DeepResearchArgs) (normWL : List LearningWithReliability)
    (normSM : List SourceMetadata)
    (hnormWL : ∀ s ∈ seededWeightedLearningsOf a, jsTrim s.content ≠ "" →
      ∃ m ∈ normWL, jsTrim m.content = jsTrim s.content ∧ s.reliability ≤ m.reliability)
    (hnormSM : ∀ sm ∈ a.sourceMetadata, sm.url ≠ "" →
      ∃ m ∈ normSM, m.url = sm.url ∧ sm.reliabilityScore ≤ m.reliabilityScore)
    (hrec : ∀ a' r', recurse a' = Except.ok r' → containsSeeds a' r' ∨ emptyResearchAcc r') :
    ∀ (qs : List SerpQuery) (b : Option BudgetState) (accs : List BranchAcc)
      (b2 : Option BudgetState),
      runQueries env recurse depth a normWL normSM qs b = Except.ok (accs, b2) →
      ∀ acc ∈ accs, branchContainsSeeds a acc ∨ acc = emptyBranch := by
  intro qs
  induction qs with
  | nil =>
    intro b accs b2 h acc hacc
    simp only [runQueries] at h
    injection h with h1
    injection h1 with h2 h3
    rw [← h2] at hacc
    cases hacc
  | cons q rest ih =>
    intro b accs b2 h acc hacc
    simp only [runQueries] at h
    split at h
    · exact Except.noConfusion h
    · rename_i acc0 b0 hbr
      split at h
      · exact Except.noConfusion h
      · rename_i accs1 b3 hrq
        injection h with h1
        injection h1 with h2 h3
        rw [← h2] at hacc
        rcases List.mem_cons.mp hacc with rfl | hacc
        · exact runBranch_seeds env recurse depth a normWL normSM q b hnormWL hnormSM hrec
            acc b0 hbr
        · exact ih b0 accs1 b3 hrq acc hacc

theorem dRBody_seeds (env : ResearchEnv) (depth : ℕ)
    (recurse : DeepResearchArgs → Except Unit DeepResearchResult) (a : DeepResearchArgs)
    (r : DeepResearchResult)
    (hrec : ∀ a' r', recurse a' = Except.ok r' → containsSeeds a' r' ∨ emptyResearchAcc r')
    (h : dRBody env depth recurse a = Except.ok r) :
    containsSeeds a r ∨ emptyResearchAcc r := by
  have hnormWL : ∀ s ∈ seededWeightedLearningsOf a, jsTrim s.content ≠ "" →
      ∃ m ∈ mergeWeightedLearnings [] (seededWeightedLearningsOf a),
        jsTrim m.content = jsTrim s.content ∧ s.reliability ≤ m.reliability := by
    intro s hs hk
    exact mergeWeightedLearnings_contains [] _ s (List.mem_append_right _ hs) hk
  have hnormSM : ∀ sm ∈ a.sourceMetadata, sm.url ≠ "" →
      ∃ m ∈ mergeSourceMetadata [] a.sourceMetadata,
        m.url = sm.url ∧ sm.reliabilityScore ≤ m.reliabilityScore := by
    intro sm hsm hk
    exact mergeSourceMetadata_contains [] _ sm (List.mem_append_right _ hsm) hk
  simp only [dRBody] at h
  split at h
  · exact Except.noConfusion h
  · rename_i serpQueries budget1 hgen
    split at h
    · left
      injection h with h1
      rw [← h1]
      exact ⟨hnormWL, hnormSM, fun u hu => hu⟩
    · split at h
      · exact Except.noConfusion h
      · rename_i accs budget2 hrq
        injection h with h1
        have hall := runQueries_seeds env recurse depth a _ _ hnormWL hnormSM hrec
          serpQueries budget1 accs budget2 hrq
        by_cases hex : ∃ acc ∈ accs, branchContainsSeeds a acc
        · left
          obtain ⟨acc, hacc, ⟨c1, c2, c3⟩⟩ := hex
          rw [← h1]
          refine ⟨?_, ?_, ?_⟩
          · intro s hs hk
            obtain ⟨m, hm, hkey, hrel⟩ := c1 s hs hk
            obtain ⟨y, hy, hykey, hyrel⟩ :=
              mergeWeightedLearnings_contains [] (accs.flatMap (fun x => x.weightedLearnings)) m
                (List.mem_append_right _ (List.mem_flatMap.mpr ⟨acc, hacc, hm⟩))
                (by rw [hkey]; exact hk)
            exact ⟨y, hy, by rw [hykey, hkey], le_trans hrel hyrel⟩
          · intro sm hsm hk
            obtain ⟨m, hm, hkey, hrel⟩ := c2 sm hsm hk
            obtain ⟨y, hy, hykey, hyrel⟩ :=
              mergeSourceMetadata_contains [] (accs.flatMap (fun x => x.sourceMetadata)) m
                (List.mem_append_right _ (List.mem_flatMap.mpr ⟨acc, hacc, hm⟩))
                (by rw [hkey]; exact hk)
            exact ⟨y, hy, by rw [hykey, hkey], le_trans hrel hyrel⟩
          · intro u hu
            exact (mem_setDedup _ u).mpr (List.mem_flatMap.mpr ⟨acc, hacc, c3 u hu⟩)
        · right
          push_neg at hex
          have hempty : ∀ acc ∈ accs, acc = emptyBranch := by
            intro acc hacc
            rcases hall acc hacc with hc | he
            · exact absurd hc (hex acc hacc)
            · exact he
          have hwl : accs.flatMap (fun x => x.weightedLearnings) = [] := by
            rw [List.flatMap_eq_nil_iff]
            intro acc hacc
            rw [hempty acc hacc]
            rfl
          have hsm2 : accs.flatMap (fun x => x.sourceMetadata) = [] := by
            rw [List.flatMap_eq_nil_iff]
            intro acc hacc
            rw [hempty acc hacc]
            rfl
          have hvu : accs.flatMap (fun x => x.visitedUrls) = [] := by
            rw [List.flatMap_eq_nil_iff]
            intro acc hacc
            rw [hempty acc hacc]
            rfl
          rw [← h1]
          refine ⟨?_, ?_, ?_, ?_, ?_⟩ <;> simp [hwl, hsm2, hvu, emptyResearchAcc,
            mergeWeightedLearnings, mergeSourceMetadata, mergeBy, canon, setDedup]

theorem dRGo_seeds (env : ResearchEnv) :
    ∀ (depth : ℕ) (a : DeepResearchArgs) (r : DeepResearchResult),
      dRGo env depth a = Except.ok r → containsSeeds a r ∨ emptyResearchAcc r := by
  intro depth
  induction depth using Nat.strong_induction_on with
  | _ depth ih =>
    intro a r h
    match depth with
    | 0 =>
      simp only [dRGo] at h
      exact dRBody_seeds env 0 _ a r (fun a' r' h' => Except.noConfusion h') h
    | 1 =>
      simp only [dRGo] at h
      exact dRBody_seeds env 1 _ a r (fun a' r' h' => Except.noConfusion h') h
    | (d + 2) =>
      simp only [dRGo] at h
      exact dRBody_seeds env (d + 2) _ a r
        (fun a' r' h' => ih (d + 1) (by omega) a' r' h') h

/-! ## Claim C2: propagation of the seeded accumulators -/

/-- Environment for the C2 counterexample: the planner answers with one
query and no usage; nothing else is ever reached. -/
def envC2cex : ResearchEnv :=
  { hostname := fun _ => none,
    planModel := fun _ => some
      ([{ query := "sq", researchGoal := "goal", reliabilityThreshold := 0,
          isVerificationQuery := false, relatedDirection := none }], none),
    filterModel := fun _ => none, searchData := fun _ _ => none, scrape := fun _ => none,
    evalModel := fun _ => none, extractModel := fun _ => none, reportModel := fun _ => none }

/-- Arguments for the C2 counterexample: seeded learning, metadata and
visited url, with a shared budget state that is already reached. -/
def argsC2cex : DeepResearchArgs :=
  { query := "q", breadth := 1, learnings := [], learningReliabilities := []
    visitedUrls := ["https://seen.example/"]
    sourceMetadata := [{ url := "https://seen.example/", title := none, publishDate := none,
                         domain := "seen.example", relevanceScore := none, reliabilityScore := 1,
                         reliabilityReasoning := "r" }]
    weightedLearnings := [{ content := "seed", reliability := 1 }]
    researchDirections := [], tokenBudget := none,
    budgetState := some { tokenBudget := some 10, usedTokens := 10, reached := true },
    sourcePreferences := none }

/-- C2 counterexample: the budget is reached before the single SerpQuery
branch starts, so the branch returns empty accumulators and the final
cross-branch merge is built from the branch results alone — every seeded
learning, metadata record and visited url is dropped from the returned
result, against the claim. -/
theorem seeds_dropped_counterexample :
    argsC2cex.weightedLearnings = [{ content := "seed", reliability := 1 }] ∧
    argsC2cex.visitedUrls = ["https://seen.example/"] ∧
    argsC2cex.sourceMetadata ≠ [] ∧
    deepResearch envC2cex 1 argsC2cex =
      Except.ok { learnings := [], learningReliabilities := [], visitedUrls := [],
                  sourceMetadata := [], weightedLearnings := [],
                  budget := some { tokenBudget := some 10, usedTokens := 10, reached := true } } :=
  ⟨rfl, rfl, by decide, by decide⟩

/-- C2 amended: whenever `deepResearch` returns a result, either the
result contains (after the merge rules) every seeded learning, every
seeded metadata record and every seeded visited url, or every SerpQuery
branch was budget-skipped or failed and the result carries completely
empty accumulators (the seeds being dropped in that case).  A branch that
completes processing — including one cut short by the budget after its
in-flight work, and recursion into a child that itself returns seeded
accumulators — preserves the seeds; only the all-branches-empty case
loses them. -/
theorem deepResearch_seed_propagation (env : ResearchEnv) (depth : ℕ) (a : DeepResearchArgs)
    (r : DeepResearchResult) (h : deepResearch env depth a = Except.ok r) :
    containsSeeds a r ∨ emptyResearchAcc r :=
  dRGo_seeds env depth a r h

/-- Environment for the C2 witness: the planner returns an empty query
list, so the node returns its normalized seeds. -/
def envC2w : ResearchEnv :=
  { hostname := fun _ => none, planModel := fun _ => some ([], none),
    filterModel := fun _ => none, searchData := fun _ _ => none, scrape := fun _ => none,
    evalModel := fun _ => none, extractModel := fun _ => none, reportModel := fun _ => none }

/-- Arguments for the C2 witness. -/
def argsC2w : DeepResearchArgs :=
  { query := "q", breadth := 1, learnings := [], learningReliabilities := []
    visitedUrls := ["https://seen.example/"]
    sourceMetadata := [], weightedLearnings := [{ content := "s", reliability := 1 }]
    researchDirections := [], tokenBudget := none, budgetState := none,
    sourcePreferences := none }

/-- C2 amended, witnessed on a run whose planner returns no queries. -/
theorem deepResearch_seed_propagation_witness :
    containsSeeds argsC2w
        { learnings := ["s"], learningReliabilities := [1],
          visitedUrls := ["https://seen.example/"], sourceMetadata := [],
          weightedLearnings := [{ content := "s", reliability := 1 }], budget := none } ∨
      emptyResearchAcc
        { learnings := ["s"], learningReliabilities := [1],
          visitedUrls := ["https://seen.example/"], sourceMetadata := [],
          weightedLearnings := [{ content := "s", reliability := 1 }], budget := none } :=
  deepResearch_seed_propagation envC2w 1 argsC2w
    { learnings := ["s"], learningReliabilities := [1],
      visitedUrls := ["https://seen.example/"], sourceMetadata := [],
      weightedLearnings := [{ content := "s", reliability := 1 }], budget := none }
    (by decide)

/-! ## Claim C1: the reliability threshold before extraction -/

/-- Url parser for the C1 failing input. -/
def hostC1 : String → Option String := fun u =>
  if u = "https://a.example/" then some ("a.example")
  else if u = "https://b.example/" then some ("b.example")
  else if u = "https://c.example/" then some ("c.example")
  else none

/-- Three fetched pages with markdown for the C1 failing input. -/
def dataC1 : List SerpResultItem :=
  [{ url := some ("https://a.example/"), title := none, markdown := some ("mdA") },
   { url := some ("https://b.example/"), title := none, markdown := some ("mdB") },
   { url := some ("https://c.example/"), title := none, markdown := some ("mdC") }]

/-- Evaluator output for the C1 failing input: all three pages usable,
all with reliability score 0 — strictly below the query's threshold 1. -/
def evalsC1 : List ModelEvaluation :=
  [{ index := 0, score := 0, reasoning := "ra", use := true, preferenceReason := none },
   { index := 1, score := 0, reasoning := "rb", use := true, preferenceReason := none },
   { index := 2, score := 0, reasoning := "rc", use := true, preferenceReason := none }]

/-- Extractor output for the C1 failing input. -/
def outC1 : ExtractOutput :=
  { learnings := [{ content := "EXTRACTED", confidence := 1, sources := [] }],
    followUpQuestions := [],
    sourceQuality := { mostReliableSources := [], contentGaps := [], reliabilityAnalysis := "x" } }

/-- Environment for the C1 failing input. -/
def envC1 : ResearchEnv :=
  { hostname := hostC1, planModel := fun _ => none, filterModel := fun _ => none,
    searchData := fun _ _ => none, scrape := fun _ => none,
    evalModel := fun _ => some (evalsC1, none),
    extractModel := fun _ => some (outC1, none), reportModel := fun _ => none }

/-- The metadata `processSerpResult` builds for the C1 failing input. -/
def mdC1 : List SourceMetadata :=
  [{ url := "https://a.example/", title := none, publishDate := none, domain := "a.example",
     relevanceScore := none, reliabilityScore := 0, reliabilityReasoning := "ra" },
   { url := "https://b.example/", title := none, publishDate := none, domain := "b.example",
     relevanceScore := none, reliabilityScore := 0, reliabilityReasoning := "rb" },
   { url := "https://c.example/", title := none, publishDate := none, domain := "c.example",
     relevanceScore := none, reliabilityScore := 0, reliabilityReasoning := "rc" }]

/-- What `processSerpResult` actually returns on the C1 failing input. -/
def prC1 : ProcessedResult :=
  { learnings := ["EXTRACTED"], learningConfidences := [1], followUpQuestions := [],
    followUpPriorities := [], sourceMetadata := mdC1,
    weightedLearnings := [{ content := "EXTRACTED", reliability := 1 }] }

/-- C1, evaluated at the failing input (three evaluated pages with score 0,
threshold 1): `sortedContentsOf` — the source's threshold-filtered,
reliability-sorted `sortedContents` local — is empty, so per the claim the
extractor must be skipped and the node must return empty learnings; but
the local is dead code: the extractor prompt is built from the unsorted,
unfiltered `contentWithMetadata` pairs (all three pages), the call is
made, and `processSerpResult` returns the extractor's learnings. -/
theorem extraction_threshold_code_bug :
    sortedContentsOf
        ((contentsOf (keptOf (pairEvaluations (validItemsOf dataC1)
            (evalResultsOf hostC1 (validItemsOf dataC1) evalsC1)))).zip mdC1) 1 = [] ∧
    (((contentsOf (keptOf (pairEvaluations (validItemsOf dataC1)
        (evalResultsOf hostC1 (validItemsOf dataC1) evalsC1)))).zip mdC1).map
      (fun p => p.1)) = ["mdA", "mdB", "mdC"] ∧
    processSerpResult envC1 none "q" dataC1 3 3 1 "" none = (Except.ok prC1, none) := by
  refine ⟨by decide, by decide, by decide⟩

/-! ## Claim C3: evaluation alignment -/

/-- Index-aligned post-processing, following the words of the spec: each
evaluation is applied to the input page at its `index` field; pages whose
evaluation has `use = false` are dropped and the rest keep exactly their
evaluation. -/
def specIndexAlignedKept (items : List SerpResultItem) (evals : List ModelEvaluation) :
    List (SerpResultItem × ModelEvaluation) :=
  evals.filterMap fun ev =>
    (items.get? ev.index).bind fun item => if ev.use then some (item, ev) else none

/-- Two pages for the C3 counterexample. -/
def itemsC3 : List SerpResultItem :=
  [{ url := some ("https://a.example/"), title := none, markdown := some ("mdA") },
   { url := some ("https://b.example/"), title := none, markdown := some ("mdB") }]

/-- Evaluator output for the C3 counterexample: the evaluations arrive in
reversed index order, with the `index = 1` evaluation carrying
`use = false`. -/
def evalsC3 : List ModelEvaluation :=
  [{ index := 1, score := 9/10, reasoning := "rb", use := false, preferenceReason := none },
   { index := 0, score := 1/5, reasoning := "ra", use := true, preferenceReason := none }]

/-- Url parser for the C3 counterexample. -/
def hostC3 : String → Option String := fun u =>
  if u = "https://a.example/" then some ("a.example")
  else if u = "https://b.example/" then some ("b.example")
  else none

/-- C3 counterexample: with the evaluations in reversed index order the
code keeps page B (dropping page A, which got paired positionally with the
`use=false` evaluation), while index-alignment as claimed keeps page A and
drops page B. -/
theorem evaluation_alignment_counterexample :
    (keptOf (pairEvaluations itemsC3 (evalResultsOf hostC3 itemsC3 evalsC3))).map
        (fun p => orEmpty p.item.url) = ["https://b.example/"] ∧
    (specIndexAlignedKept itemsC3 evalsC3).map (fun p => orEmpty p.1.url) =
      ["https://a.example/"] ∧
    (["https://b.example/"] : List String) ≠ ["https://a.example/"] := by
  refine ⟨?_, ?_, by decide⟩
  · simp [keptOf, pairEvaluations, evalResultsOf, itemsC3, evalsC3, hostC3, orEmpty,
      hostnameOrEmpty, List.enum]
  · simp [specIndexAlignedKept, itemsC3, evalsC3, orEmpty]

/-- C3 amended: post-processing pairs the i-th evaluation with the i-th
input page positionally; only the `domain` is drawn from the page at the
evaluation's `index` field.  When every evaluation's `index` equals its
position this coincides with index-alignment: the page at position i is
dropped exactly when that evaluation has `use = false`, and a kept page's
metadata record carries exactly that evaluation's score and (nonempty)
reasoning. -/
theorem evaluation_alignment_amended (hostname : String → Option String)
    (items : List SerpResultItem) (evals : List ModelEvaluation)
    (hidx : ∀ i ev, evals.get? i = some ev → ev.index = i) :
    (∀ i item ev, items.get? i = some item → evals.get? i = some ev →
      (pairEvaluations items (evalResultsOf hostname items evals)).get? i =
        some { excluded := !ev.use, item := item,
               ev := some { score := ev.score, reasoning := ev.reasoning, use := ev.use,
                            preferenceReason := ev.preferenceReason,
                            domain := hostnameOrEmpty hostname (orEmpty item.url) } }) ∧
    (∀ r e, r.ev = some e → e.domain ≠ "" →
      keptMetaOne hostname r =
        Except.ok
          { url := orEmpty r.item.url, title := orNone r.item.title, publishDate := none,
            domain := e.domain, relevanceScore := none, reliabilityScore := e.score,
            reliabilityReasoning :=
              if e.reasoning = "" then "No reasoning provided" else e.reasoning }) := by
  constructor
  · intro i item ev hitem hev
    unfold pairEvaluations
    rw [List.get?_eq_getElem?, List.getElem?_map, List.getElem?_enum,
      ← List.get?_eq_getElem?, hitem]
    have hres : (evalResultsOf hostname items evals).get? i =
        some { score := ev.score, reasoning := ev.reasoning, use := ev.use,
               preferenceReason := ev.preferenceReason,
               domain := hostnameOrEmpty hostname (orEmpty item.url) } := by
      unfold evalResultsOf
      rw [List.get?_eq_getElem?, List.getElem?_map, ← List.get?_eq_getElem?, hev]
      simp only [Option.map_some']
      rw [hidx i ev hev, hitem]
      rfl
    simp only [Option.map_some', hres]
    cases hu : ev.use <;> simp [hu]
  · intro r e hev hdom
    simp [keptMetaOne, hev, hdom]

/-- C3 amended, witnessed on a concrete in-order evaluation list. -/
theorem evaluation_alignment_amended_witness :
    (pairEvaluations itemsC3
        (evalResultsOf hostC3 itemsC3
          [{ index := 0, score := 1/5, reasoning := "ra", use := true,
             preferenceReason := none }])).get? 0 =
      some { excluded := false,
             item := { url := some ("https://a.example/"), title := none,
                       markdown := some ("mdA") },
             ev := some { score := 1/5, reasoning := "ra", use := true,
                          preferenceReason := none, domain := "a.example" } } := by
  have h :=
    (evaluation_alignment_amended hostC3 itemsC3
        [{ index := 0, score := 1/5, reasoning := "ra", use := true, preferenceReason := none }]
        (by intro i ev hev
            match i, hev with
            | 0, h => injection h with h; rw [← h])).1 0
      { url := some ("https://a.example/"), title := none, markdown := some ("mdA") }
      { index := 0, score := 1/5, reasoning := "ra", use := true, preferenceReason := none }
      rfl rfl
  rw [h]
  simp [hostnameOrEmpty, hostC3, orEmpty]

/-! ## Claim C8: omission of the preference blocks -/

/-- C8 counterexample: a whitespace-only preference text.  The evaluator
trims before testing, but the pre-filter only tests truthiness, so the
pre-filter prompt for `sourcePreferences = " "` carries the
`User preferences to avoid` block and differs from the prompt built with
no preferences — the claim says both prompts contain no preference block
for whitespace-only preferences. -/
theorem filterPrompt_whitespace_counterexample :
    jsTrim (" ") = "" ∧
    filterPrefPiece (some (" ")) = "User preferences to avoid:\n \n" ∧
    filterPrompt "q" "https://a.example/" "a.example" none none (some (" ")) ≠
      filterPrompt "q" "https://a.example/" "a.example" none none none := by
  refine ⟨by decide, by decide, ?_⟩
  unfold filterPrompt filterPrefPiece orNA
  decide

/-- C8 amended: with `sourcePreferences` absent or the empty string the
pre-filter prompt omits the preference block (it equals the no-preferences
prompt), and with `sourcePreferences` absent, empty or of empty trim the
evaluator prompt omits the `<preferences>` block (it equals the
no-preferences prompt); but a whitespace-only preference text, being
truthy, does append its `User preferences to avoid` block to the
pre-filter prompt. -/
theorem preference_block_omission (q u d : String) (t desc : Option String) (sl p : String) :
    (filterPrompt q u d t desc (some ("")) = filterPrompt q u d t desc none) ∧
    (jsTrim p = "" → evalPrompt q (some p) sl = evalPrompt q none sl) ∧
    (p ≠ "" → filterPrefPiece (some p) = "User preferences to avoid:\n" ++ p ++ "\n") := by
  refine ⟨?_, ?_, ?_⟩
  · simp [filterPrompt, filterPrefPiece]
  · intro hp
    simp [evalPrompt, evalPrefBlock, hp]
  · intro hp
    simp [filterPrefPiece, hp]

/-- C8 amended, witnessed at concrete arguments with a whitespace-only
preference text. -/
theorem preference_block_omission_witness :
    (filterPrompt "q" "https://a.example/" "a.example" none none (some ("")) =
      filterPrompt "q" "https://a.example/" "a.example" none none none) ∧
    evalPrompt "q" (some (" ")) "[0] URL:" = evalPrompt "q" none "[0] URL:" ∧
    filterPrefPiece (some (" ")) = "User preferences to avoid:\n" ++ " " ++ "\n" := by
  obtain ⟨h1, h2, h3⟩ :=
    preference_block_omission "q" "https://a.example/" "a.example" none none "[0] URL:" (" ")
  exact ⟨h1, h2 (by decide), h3 (by decide)⟩

/-- C7 witnessed on a concrete environment: a failing fetch yields `none`,
and a successful scrape of a page whose conversion produces whitespace
yields a page with an absent (never empty) markdown field. -/
theorem scrapeUrl_error_handling_witness :
    scrapeUrl
        { fetchUrl := fun _ => none, loadHtml := fun _ => some (), titleText := fun _ => "",
          contentHtml := fun _ => some ("<p>x</p>"), turndown := fun _ => "x"
          : ScrapeEnv Unit }
        "https://a.example/" = none :=
  (scrapeUrl_error_handling _ _).1 rfl

/-! ## Claim C4: reliability range of the returned weighted learnings

The extractor schema validates `confidence` only as a number
(`z.number().describe(...)`: the describe text "between 0 and 1" is
documentation, not a constraint), and `processSerpResult` copies
`l.confidence` into `reliability` with no clamping, so a schema-accepted
output with confidence outside `[0,1]` flows into the returned set
unchanged.  The counterexample below exhibits this; the conditional
theorems show the invariant does hold whenever every extractor confidence
and every seeded reliability lies in `[0,1]`. -/

/-- Environment for the C4 counterexample: one planned query, one search
hit that passes the pre-filter, is scraped, and is kept by the evaluator
with score 1; the extractor returns a single learning with confidence 2
(accepted by the schema, which only checks that confidence is a number). -/
def envC4cex : ResearchEnv :=
  { hostname := fun u => if u = "https://a.example/" then some ("a.example") else none,
    planModel := fun _ => some
      ([{ query := "sq", researchGoal := "", reliabilityThreshold := 0,
          isVerificationQuery := false, relatedDirection := none }], none),
    filterModel := fun _ => some (true, none),
    searchData := fun _ _ => some [{ url := some ("https://a.example/"), title := none, description := none }],
    scrape := fun u => if u = "https://a.example/" then
        some { url := "https://a.example/", title := none, markdown := some ("md") } else none,
    evalModel := fun _ => some
      ([{ index := 0, score := 1, reasoning := "r", use := true, preferenceReason := none }], none),
    extractModel := fun _ => some
      ({ learnings := [{ content := "L", confidence := 2, sources := [] }],
         followUpQuestions := [],
         sourceQuality := { mostReliableSources := [], contentGaps := [],
                            reliabilityAnalysis := "x" } }, none),
    reportModel := fun _ => none }

/-- Arguments for the C4 counterexample: no seeds, no budget. -/
def argsC4cex : DeepResearchArgs :=
  { query := "q", breadth := 1, learnings := [], learningReliabilities := []
    visitedUrls := [], sourceMetadata := [], weightedLearnings := []
    researchDirections := [], tokenBudget := none, budgetState := none,
    sourcePreferences := none }

/-- Result of running `deepResearch envC4cex 1 argsC4cex`: the confidence 2
reaches the returned weighted learnings unclamped. -/
def resC4cex : DeepResearchResult :=
  { learnings := ["L"], learningReliabilities := [2], visitedUrls := ["https://a.example/"],
    sourceMetadata := [{ url := "https://a.example/", title := none, publishDate := none,
                         domain := "a.example", relevanceScore := none, reliabilityScore := 1,
                         reliabilityReasoning := "r" }],
    weightedLearnings := [{ content := "L", reliability := 2 }], budget := none }

/-- The documented confidence range, as a hypothesis on the extractor:
every learning in every accepted extractor output has confidence in
`[0,1]`. -/
def extractorConfidences01 (env : ResearchEnv) : Prop :=
  ∀ p out usage, env.extractModel p = some (out, usage) →
    ∀ l ∈ out.learnings, 0 ≤ l.confidence ∧ l.confidence ≤ 1

/-- The seeds of a call stay in range: every seeded weighted learning and
every seeded reliability lies in `[0,1]`. -/
def seedReliabilities01 (a : DeepResearchArgs) : Prop :=
  (∀ s ∈ a.weightedLearnings, 0 ≤ s.reliability ∧ s.reliability ≤ 1) ∧
  (∀ q ∈ a.learningReliabilities, 0 ≤ q ∧ q ≤ 1)

/-- Pairing learnings with in-range reliabilities (default 0.5) yields
in-range seeds. -/
theorem seedPairs01 (ls : List String) (rs : List ℚ)
    (hrs : ∀ q ∈ rs, 0 ≤ q ∧ q ≤ 1) :
    ∀ s ∈ seedPairs ls rs, 0 ≤ s.reliability ∧ s.reliability ≤ 1 := by
  intro s hs
  unfold seedPairs at hs
  rcases List.mem_map.mp hs with ⟨p, hp, rfl⟩
  simp only
  cases hq : rs.get? p.1 with
  | none => simp [hq]; norm_num
  | some v =>
    simp [hq]
    exact hrs v (List.get?_mem hq)

/-- The seeding step preserves the range invariant. -/
theorem seeded01 (a : DeepResearchArgs) (h : seedReliabilities01 a) :
    ∀ s ∈ seededWeightedLearningsOf a, 0 ≤ s.reliability ∧ s.reliability ≤ 1 := by
  intro s hs
  unfold seededWeightedLearningsOf at hs
  split at hs
  · exact seedPairs01 _ _ h.2 s hs
  · exact h.1 s hs

/-- Under the documented confidence range, `processSerpResult` returns only
in-range weighted learnings. -/
theorem processSerpResult01 (env : ResearchEnv) (b : Option BudgetState) (query : String)
    (data : List SerpResultItem) (nl nf : ℕ) (τ : ℚ) (goal : String) (prefs : Option String)
    (pr : ProcessedResult) (b' : Option BudgetState)
    (hext : extractorConfidences01 env)
    (h : processSerpResult env b query data nl nf τ goal prefs = (Except.ok pr, b')) :
    ∀ m ∈ pr.weightedLearnings, 0 ≤ m.reliability ∧ m.reliability ≤ 1 := by
  simp only [processSerpResult] at h
  split at h
  · exact absurd (congrArg Prod.fst h) (by simp)
  · split at h
    · injection h with h1 h2
      injection h1 with h1
      intro m hm
      rw [← h1] at hm
      cases hm
    · split at h
      · exact absurd (congrArg Prod.fst h) (by simp)
      · rename_i out usage hout
        injection h with h1 h2
        injection h1 with h1
        intro m hm
        rw [← h1] at hm
        simp only at hm
        rcases List.mem_map.mp hm with ⟨l, hl, rfl⟩
        exact hext _ out usage hout l hl

/-- A single branch preserves the range invariant, given in-range
normalized seeds and an in-range recursion. -/
theorem runBranch01 (env : ResearchEnv)
    (recurse : DeepResearchArgs → Except Unit DeepResearchResult)
    (depth : ℕ) (a : DeepResearchArgs) (normWL : List LearningWithReliability)
    (normSM : List SourceMetadata) (q : SerpQuery) (b : Option BudgetState)
    (hext : extractorConfidences01 env)
    (hnorm : ∀ m ∈ normWL, 0 ≤ m.reliability ∧ m.reliability ≤ 1)
    (hrec : ∀ a' r', seedReliabilities01 a' → recurse a' = Except.ok r' →
      ∀ m ∈ r'.weightedLearnings, 0 ≤ m.reliability ∧ m.reliability ≤ 1)
    (acc : BranchAcc) (b1 : Option BudgetState)
    (h : runBranch env recurse depth a normWL normSM q b = Except.ok (acc, b1)) :
    ∀ m ∈ acc.weightedLearnings, 0 ≤ m.reliability ∧ m.reliability ≤ 1 := by
  have hempty : ∀ m ∈ emptyBranch.weightedLearnings,
      0 ≤ m.reliability ∧ m.reliability ≤ 1 := by
    intro m hm
    cases hm
  simp only [runBranch] at h
  split at h
  · injection h with h1; injection h1 with h2 h3; rw [← h2]; exact hempty
  · split at h
    · injection h with h1; injection h1 with h2 h3; rw [← h2]; exact hempty
    · split at h
      · injection h with h1; injection h1 with h2 h3; rw [← h2]; exact hempty
      · split at h
        · injection h with h1; injection h1 with h2 h3; rw [← h2]; exact hempty
        · rename_i pr b2 hpr
          have hprbound := processSerpResult01 env _ q.query _ 3 _ q.reliabilityThreshold
            q.researchGoal a.sourcePreferences pr b2 hext hpr
          have hallbound : ∀ m ∈ mergeWeightedLearnings normWL pr.weightedLearnings,
              0 ≤ m.reliability ∧ m.reliability ≤ 1 := by
            intro m hm
            rcases List.mem_append.mp (mem_mergeWeightedLearnings _ _ m hm) with hm | hm
            · exact hnorm m hm
            · exact hprbound m hm
          split at h
          · injection h with h1; injection h1 with h2 h3; rw [← h2]; exact hallbound
          · split at h
            · split at h
              · exact Except.noConfusion h
              · rename_i rr hrr
                injection h with h1
                injection h1 with h2 h3
                intro m hm
                rw [← h2] at hm
                refine hrec _ rr ⟨hallbound, ?_⟩ hrr m hm
                intro v hv
                rcases List.mem_map.mp hv with ⟨l, hl, rfl⟩
                exact hallbound l hl
            · injection h with h1; injection h1 with h2 h3; rw [← h2]; exact hallbound

/-- The branch fold preserves the range invariant on every accumulator. -/
theorem runQueries01 (env : ResearchEnv)
    (recurse : DeepResearchArgs → Except Unit DeepResearchResult)
    (depth : ℕ) (a : DeepResearchArgs) (normWL : List LearningWithReliability)
    (normSM : List SourceMetadata)
    (hext : extractorConfidences01 env)
    (hnorm : ∀ m ∈ normWL, 0 ≤ m.reliability ∧ m.reliability ≤ 1)
    (hrec : ∀ a' r', seedReliabilities01 a' → recurse a' = Except.ok r' →
      ∀ m ∈ r'.weightedLearnings, 0 ≤ m.reliability ∧ m.reliability ≤ 1) :
    ∀ (qs : List SerpQuery) (b : Option BudgetState) (accs : List BranchAcc)
      (b2 : Option BudgetState),
      runQueries env recurse depth a normWL normSM qs b = Except.ok (accs, b2) →
      ∀ acc ∈ accs, ∀ m ∈ acc.weightedLearnings, 0 ≤ m.reliability ∧ m.reliability ≤ 1 := by
  intro qs
  induction qs with
  | nil =>
    intro b accs b2 h acc hacc
    simp only [runQueries] at h
    injection h with h1
    injection h1 with h2 h3
    rw [← h2] at hacc
    cases hacc
  | cons q rest ih =>
    intro b accs b2 h acc hacc
    simp only [runQueries] at h
    split at h
    · exact Except.noConfusion h
    · rename_i acc0 b0 hbr
      split at h
      · exact Except.noConfusion h
      · rename_i accs1 b3 hrq
        injection h with h1
        injection h1 with h2 h3
        rw [← h2] at hacc
        rcases List.mem_cons.mp hacc with rfl | hacc
        · exact runBranch01 env recurse depth a normWL normSM q b hext hnorm hrec acc b0 hbr
        · exact ih b0 accs1 b3 hrq acc hacc

/-- One node of `deepResearch` preserves the range invariant. -/
theorem dRBody01 (env : ResearchEnv) (depth : ℕ)
    (recurse : DeepResearchArgs → Except Unit DeepResearchResult) (a : DeepResearchArgs)
    (r : DeepResearchResult)
    (hext : extractorConfidences01 env) (hseed : seedReliabilities01 a)
    (hrec : ∀ a' r', seedReliabilities01 a' → recurse a' = Except.ok r' →
      ∀ m ∈ r'.weightedLearnings, 0 ≤ m.reliability ∧ m.reliability ≤ 1)
    (h : dRBody env depth recurse a = Except.ok r) :
    ∀ m ∈ r.weightedLearnings, 0 ≤ m.reliability ∧ m.reliability ≤ 1 := by
  have hnorm : ∀ m ∈ mergeWeightedLearnings [] (seededWeightedLearningsOf a),
      0 ≤ m.reliability ∧ m.reliability ≤ 1 := by
    intro m hm
    rcases List.mem_append.mp (mem_mergeWeightedLearnings _ _ m hm) with hm | hm
    · cases hm
    · exact seeded01 a hseed m hm
  simp only [dRBody] at h
  split at h
  · exact Except.noConfusion h
  · rename_i serpQueries budget1 hgen
    split at h
    · injection h with h1
      intro m hm
      rw [← h1] at hm
      exact hnorm m hm
    · split at h
      · exact Except.noConfusion h
      · rename_i accs budget2 hrq
        injection h with h1
        have hall := runQueries01 env recurse depth a _ _ hext hnorm hrec
          serpQueries budget1 accs budget2 hrq
        intro m hm
        rw [← h1] at hm
        simp only at hm
        rcases List.mem_append.mp (mem_mergeWeightedLearnings _ _ m hm) with hm | hm
        · cases hm
        · rcases List.mem_flatMap.mp hm with ⟨acc, hacc, hm⟩
          exact hall acc hacc m hm

/-- The full recursion preserves the range invariant, by strong induction
on depth. -/
theorem dRGo01 (env : ResearchEnv) (hext : extractorConfidences01 env) :
    ∀ (depth : ℕ) (a : DeepResearchArgs) (r : DeepResearchResult),
      seedReliabilities01 a → dRGo env depth a = Except.ok r →
      ∀ m ∈ r.weightedLearnings, 0 ≤ m.reliability ∧ m.reliability ≤ 1 := by
  intro depth
  induction depth using Nat.strong_induction_on with
  | _ depth ih =>
    intro a r hseed h
    match depth with
    | 0 =>
      simp only [dRGo] at h
      exact dRBody01 env 0 _ a r hext hseed (fun a' r' _ h' => Except.noConfusion h') h
    | 1 =>
      simp only [dRGo] at h
      exact dRBody01 env 1 _ a r hext hseed (fun a' r' _ h' => Except.noConfusion h') h
    | (d + 2) =>
      simp only [dRGo] at h
      exact dRBody01 env (d + 2) _ a r hext hseed
        (fun a' r' hs h' => ih (d + 1) (by omega) a' r' hs h') h

/-- The range invariant the spec states does hold under the documented
(but unenforced) confidence range: if every accepted extractor output has
confidences in `[0,1]` and the seeds are in range, then every weighted
learning in the returned set has reliability in `[0,1]`. -/
theorem deepResearch_reliability_range_conditional (env : ResearchEnv) (depth : ℕ)
    (a : DeepResearchArgs) (r : DeepResearchResult)
    (hext : extractorConfidences01 env) (hseed : seedReliabilities01 a)
    (h : deepResearch env depth a = Except.ok r) :
    ∀ m ∈ r.weightedLearnings, 0 ≤ m.reliability ∧ m.reliability ≤ 1 :=
  dRGo01 env hext depth a r hseed h

/-- C4: the claimed invariant fails against the code as written.  The
extractor schema accepts any numeric confidence (its range is stated only
in a describe annotation), and `processSerpResult` copies confidence into
reliability unclamped: running `deepResearch` on a schema-accepted output
with confidence 2 returns a weighted learning with reliability 2, outside
`[0,1]`. -/
theorem reliability_range_code_bug :
    deepResearch envC4cex 1 argsC4cex = Except.ok resC4cex ∧
      ({ content := "L", reliability := 2 } : LearningWithReliability) ∈
        resC4cex.weightedLearnings ∧
      ¬ (({ content := "L", reliability := 2 } : LearningWithReliability).reliability ≤ 1) :=
  ⟨by decide, by decide, by decide⟩

end WebSearch
